import Mathlib

/-!
Event store (in-memory) and event bus of eventhorizon

A shallow embedding of `src/eventstore/memory/eventstore.go` and of
`src/eventbus.go`.

Conventions of the embedding:

* A Go map is a function into `Option`; `none` is an absent key.
* The store is threaded explicitly: every operation takes the store and
  returns the store after the call together with its Go return values.
  The store-wide mutex serialises the calls, so a run of the program is a
  sequence of such steps.
* Go `int` is `Int`. The only arithmetic of the source is `version+1`,
  `version++` and `Version += len(dbEvents)`. `Save64` is `Save` with this
  arithmetic as the machine does it, wrapping to 64 bits (`wrapInt`);
  `Save` is `Save64` with ideal integers, and the two agree whenever
  `originalVersion + len(events)` does not pass `MaxInt64`
  (`Save64_eq_Save`).
* A Go `error` result is an `Option`: `none` is `nil`.
* An event handler is a value of a type `H` of handlers. What calling its
  `HandleEvent` method does is a parameter of `PublishEvent`: a function on
  the bus (which a handler may hold and change) and a state `σ` of the rest of
  the program, whose result says whether the call returned or panicked.
-/

set_option autoImplicit false

/-! Package `eh` (imported by the store, declarations only) -/

/-- Modelled from the spec: the aggregate identifier type `eh.UUID`, whose
declaration is outside the sources; only equality of identifiers is used. -/
abbrev eh.UUID := String

/-- Modelled from the spec: the event type tag `eh.EventType`, a string tag. -/
abbrev eh.EventType := String

/-- Modelled from the spec: the aggregate type tag `eh.AggregateType`, a string tag. -/
abbrev eh.AggregateType := String

/-- Modelled from the spec: the payload `eh.EventData`, opaque to the store, which
only copies it. -/
abbrev eh.EventData := String

/-- Modelled from the spec: an instant (`time.Time`), which the store only copies. -/
abbrev time.Time := Int

/-- Modelled from the spec: the interface `eh.Event`, given by what its six accessor
methods return (event type, payload, timestamp, aggregate type, aggregate id,
version). -/
structure eh.Event where
  EventType : eh.EventType
  Data : eh.EventData
  Timestamp : time.Time
  AggregateType : eh.AggregateType
  AggregateID : eh.UUID
  Version : Int
  deriving DecidableEq, Repr

/-- Modelled from the spec: the request context `context.Context`, of which the store
reads only the namespace value that may be attached to it. -/
structure context.Context where
  ns : Option String
  deriving DecidableEq, Repr

/-- Modelled from the spec: the baseline namespace used when the context carries
none. -/
def eh.DefaultNamespace : String := "default"

/-- Modelled from the spec: `eh.Namespace(ctx)`, the namespace attached to the
context, or the baseline namespace when absent. -/
def eh.Namespace (ctx : context.Context) : String :=
  match ctx.ns with
  | some n => n
  | none => eh.DefaultNamespace

/-- The error values the store returns: the three sentinel errors of package `eh`
(modelled from the spec, their declarations are outside the sources) and
`ErrCouldNotSaveAggregate` of package `memory` (eventstore.go line 28). -/
inductive GoError where
  | ErrNoEventsToAppend
  | ErrInvalidEvent
  | ErrIncorrectEventVersion
  | ErrCouldNotSaveAggregate
  deriving DecidableEq, Repr

/-- Modelled from the spec: `eh.EventStoreError`, an error value annotated with the
active namespace. -/
structure eh.EventStoreError where
  Err : GoError
  Namespace : String
  deriving DecidableEq, Repr

/-! Package `memory` -/

/-- The internal event record `dbEvent` (eventstore.go lines 168-175). -/
structure memory.dbEvent where
  EventType : eh.EventType
  Data : eh.EventData
  Timestamp : time.Time
  AggregateType : eh.AggregateType
  AggregateID : eh.UUID
  Version : Int
  deriving DecidableEq, Repr

/-- The per-aggregate record `aggregateRecord` (eventstore.go lines 160-165). -/
structure memory.aggregateRecord where
  AggregateID : eh.UUID
  Version : Int
  Events : List memory.dbEvent
  deriving DecidableEq, Repr

/-- The private implementation `event` of the `eh.Event` interface
(eventstore.go lines 179-181): a wrapper around a `dbEvent`. -/
structure memory.event where
  dbEvent : memory.dbEvent
  deriving DecidableEq, Repr

/-- Method `EventType` of `event` (line 184). -/
def memory.event.EventType (e : memory.event) : eh.EventType := e.dbEvent.EventType

/-- Method `Data` of `event` (line 189). -/
def memory.event.Data (e : memory.event) : eh.EventData := e.dbEvent.Data

/-- Method `Timestamp` of `event` (line 194). -/
def memory.event.Timestamp (e : memory.event) : time.Time := e.dbEvent.Timestamp

/-- Method `AggregateType` of `event` (line 199). -/
def memory.event.AggregateType (e : memory.event) : eh.AggregateType :=
  e.dbEvent.AggregateType

/-- Method `AggregateID` of `event` (line 204). -/
def memory.event.AggregateID (e : memory.event) : eh.UUID := e.dbEvent.AggregateID

/-- Method `Version` of `event` (line 209). -/
def memory.event.Version (e : memory.event) : Int := e.dbEvent.Version

/-- An `event` seen through the interface `eh.Event`: the values its six accessor
methods return. This is the conversion Go performs when `Load` stores an `event`
in a slice of `eh.Event`. -/
def memory.event.asEvent (e : memory.event) : eh.Event where
  EventType := e.EventType
  Data := e.Data
  Timestamp := e.Timestamp
  AggregateType := e.AggregateType
  AggregateID := e.AggregateID
  Version := e.Version

/-- The store `EventStore` (lines 31-35): the outer map is keyed by namespace, the
inner one by aggregate id. The mutex is not modelled: calls are steps. -/
structure memory.EventStore where
  db : String → Option (eh.UUID → Option memory.aggregateRecord)

/-- The constructor `NewEventStore` (lines 38-43): an empty outer map. -/
def memory.NewEventStore : memory.EventStore where
  db := fun _ => none

/-- The Go read `s.db[ns][id]` with the comma-ok form: reading a missing namespace
gives a nil inner map, and reading a nil map gives "not present". -/
def memory.EventStore.get (s : memory.EventStore) (ns : String) (id : eh.UUID) :
    Option memory.aggregateRecord :=
  match s.db ns with
  | none => none
  | some m => m id

/-- The Go write `s.db[ns][id] = aggregate`. Writing into a missing (nil) inner map
panics in Go; both callers provision the namespace first, so that branch is never
reached (see `namespaceFor_provisioned`), and it leaves the store as it is here. -/
def memory.EventStore.put (s : memory.EventStore) (ns : String) (id : eh.UUID)
    (aggregate : memory.aggregateRecord) : memory.EventStore :=
  match s.db ns with
  | none => s
  | some m =>
    { db := fun k => if k = ns then
        some (fun i => if i = id then some aggregate else m i) else s.db k }

/-- The helper `namespace` (lines 150-158): resolves the namespace of the context
and creates its (empty) inner map when it does not exist yet. -/
def memory.EventStore.namespaceFor (s : memory.EventStore) (ctx : context.Context) :
    memory.EventStore × String :=
  let ns := eh.Namespace ctx
  match s.db ns with
  | some _ => (s, ns)
  | none => ({ db := fun k => if k = ns then some (fun _ => none) else s.db k }, ns)

/-- The record built for one event in the loop of `Save` (lines 77-84). -/
def memory.toDbEvent (event : eh.Event) : memory.dbEvent where
  EventType := event.EventType
  Data := event.Data
  Timestamp := event.Timestamp
  AggregateType := event.AggregateType
  AggregateID := event.AggregateID
  Version := event.Version

/-- The loop of `Save` (lines 59-87) over the events still to visit, with the
running `version`: it stops with `ErrInvalidEvent` at an event of another
aggregate, with `ErrIncorrectEventVersion` at an event whose version is not
`version+1`, and otherwise yields the event records in order. The integers are
ideal here; `memory.buildRecords64` is the loop with the machine's arithmetic, and
the two agree when `version + len(events)` does not pass `MaxInt64`
(`buildRecords64_eq_buildRecords`). -/
def memory.buildRecords (aggregateID : eh.UUID) :
    List eh.Event → Int → Except GoError (List memory.dbEvent)
  | [], _ => Except.ok []
  | event :: rest, version =>
    if event.AggregateID ≠ aggregateID then
      Except.error GoError.ErrInvalidEvent
    else if event.Version ≠ version + 1 then
      Except.error GoError.ErrIncorrectEventVersion
    else
      match memory.buildRecords aggregateID rest (version + 1) with
      | Except.error err => Except.error err
      | Except.ok dbEvents => Except.ok (memory.toDbEvent event :: dbEvents)

/-- The method `Save` (lines 46-123). Returns the store after the call and the
returned error (`none` is `nil`). The integers are ideal here;
`memory.EventStore.Save64` is the method with the machine's arithmetic, and the two
agree when `originalVersion + len(events)` does not pass `MaxInt64`
(`Save64_eq_Save`). -/
def memory.EventStore.Save (s : memory.EventStore) (ctx : context.Context)
    (events : List eh.Event) (originalVersion : Int) :
    memory.EventStore × Option eh.EventStoreError :=
  match events with
  | [] => (s, some ⟨GoError.ErrNoEventsToAppend, eh.Namespace ctx⟩)
  | first :: _ =>
    let aggregateID := first.AggregateID
    match memory.buildRecords aggregateID events originalVersion with
    | Except.error err => (s, some ⟨err, eh.Namespace ctx⟩)
    | Except.ok dbEvents =>
      let s1 := (s.namespaceFor ctx).1
      let ns := (s.namespaceFor ctx).2
      if originalVersion = 0 then
        (s1.put ns aggregateID
          { AggregateID := aggregateID, Version := dbEvents.length, Events := dbEvents },
         none)
      else
        match s1.get ns aggregateID with
        | some aggregate =>
          if aggregate.Version ≠ originalVersion then
            (s1, some ⟨GoError.ErrCouldNotSaveAggregate, eh.Namespace ctx⟩)
          else
            (s1.put ns aggregateID
              { aggregate with
                Version := aggregate.Version + dbEvents.length
                Events := aggregate.Events ++ dbEvents },
             none)
        | none => (s1, none)

/-- The method `Load` (lines 127-147). Returns the store after the call (the
namespace is provisioned), the events and the error (always `nil`). -/
def memory.EventStore.Load (s : memory.EventStore) (ctx : context.Context)
    (_aggregateType : eh.AggregateType) (id : eh.UUID) :
    memory.EventStore × List eh.Event × Option eh.EventStoreError :=
  let s1 := (s.namespaceFor ctx).1
  let ns := (s.namespaceFor ctx).2
  match s1.get ns id with
  | none => (s1, [], none)
  | some aggregate =>
    (s1, aggregate.Events.map (fun dbEvent => (memory.event.mk dbEvent).asEvent), none)

/-! The same method with the arithmetic of Go's 64-bit `int` -/

/-- The largest value of Go's `int` (64 bits). -/
def MaxInt64 : Int := 9223372036854775807

/-- The smallest value of Go's `int` (64 bits). -/
def MinInt64 : Int := -9223372036854775808

/-- The value that Go's `int` holds for the integer `x`: `x` wrapped to 64 bits in
two's complement, so `wrapInt (MaxInt64 + 1) = MinInt64`. -/
def wrapInt (x : Int) : Int :=
  (x + 9223372036854775808) % 18446744073709551616 - 9223372036854775808

/-- The loop of `Save` (lines 59-87) with `version+1` and `version++` computed in
Go's `int`: it stops with `ErrInvalidEvent` at an event of another aggregate,
with `ErrIncorrectEventVersion` at an event whose version is not `version+1`, and
otherwise yields the event records in order. -/
def memory.buildRecords64 (aggregateID : eh.UUID) :
    List eh.Event → Int → Except GoError (List memory.dbEvent)
  | [], _ => Except.ok []
  | event :: rest, version =>
    if event.AggregateID ≠ aggregateID then
      Except.error GoError.ErrInvalidEvent
    else if event.Version ≠ wrapInt (version + 1) then
      Except.error GoError.ErrIncorrectEventVersion
    else
      match memory.buildRecords64 aggregateID rest (wrapInt (version + 1)) with
      | Except.error err => Except.error err
      | Except.ok dbEvents => Except.ok (memory.toDbEvent event :: dbEvents)

/-- The method `Save` (lines 46-123) with the arithmetic of Go's `int`: the loop is
`buildRecords64` and `aggregate.Version += len(dbEvents)` wraps. Returns the store
after the call and the returned error (`none` is `nil`). -/
def memory.EventStore.Save64 (s : memory.EventStore) (ctx : context.Context)
    (events : List eh.Event) (originalVersion : Int) :
    memory.EventStore × Option eh.EventStoreError :=
  match events with
  | [] => (s, some ⟨GoError.ErrNoEventsToAppend, eh.Namespace ctx⟩)
  | first :: _ =>
    let aggregateID := first.AggregateID
    match memory.buildRecords64 aggregateID events originalVersion with
    | Except.error err => (s, some ⟨err, eh.Namespace ctx⟩)
    | Except.ok dbEvents =>
      let s1 := (s.namespaceFor ctx).1
      let ns := (s.namespaceFor ctx).2
      if originalVersion = 0 then
        (s1.put ns aggregateID
          { AggregateID := aggregateID, Version := dbEvents.length, Events := dbEvents },
         none)
      else
        match s1.get ns aggregateID with
        | some aggregate =>
          if aggregate.Version ≠ originalVersion then
            (s1, some ⟨GoError.ErrCouldNotSaveAggregate, eh.Namespace ctx⟩)
          else
            (s1.put ns aggregateID
              { aggregate with
                Version := wrapInt (aggregate.Version + dbEvents.length)
                Events := aggregate.Events ++ dbEvents },
             none)
        | none => (s1, none)

/-! Package `eventhorizon`: the event bus (eventbus.go) -/

/-- The bus `InternalEventBus` (eventbus.go lines 31-34) over handlers of type `H`:
the handler lists by event type tag, and the global handlers. -/
structure InternalEventBus (H : Type) where
  eventHandlers : String → Option (List H)
  globalHandlers : List H

/-- The constructor `NewInternalEventBus` (lines 37-43): an empty map and an empty
list. -/
def NewInternalEventBus {H : Type} : InternalEventBus H where
  eventHandlers := fun _ => none
  globalHandlers := []

/-- How a call ends for its caller: it returns, or it does not return because it
panicked; in both cases it leaves the state as it had made it by then. -/
inductive CallResult (α : Type) where
  | returned (state : α)
  | panicked (state : α)

/-- The state a call leaves. -/
def CallResult.state {α : Type} : CallResult α → α
  | CallResult.returned st => st
  | CallResult.panicked st => st

/-- Whether a call returned (it did not panic). -/
def CallResult.isReturned {α : Type} : CallResult α → Bool
  | CallResult.returned _ => true
  | CallResult.panicked _ => false

/-- What handlers act on: the bus, which a handler may hold a pointer to, and the
state of the rest of the program. -/
abbrev BusWorld (H σ : Type) : Type := InternalEventBus H × σ

/-- The method `HandleEvent` of the interface `EventHandler` (lines 18-21), for all
handlers: `HandleEvent handler event st` is how the call
`handler.HandleEvent(event)` ends when made in the state `st`. -/
abbrev HandleEventFn (H σ : Type) : Type :=
  H → eh.Event → BusWorld H σ → CallResult (BusWorld H σ)

/-- A loop `for _, handler := range handlers { handler.HandleEvent(event) }` (lines
48-50 and 54-56): the slice is read once, before the first call; the bus has no
`recover`, so the first call that panics ends the loop and the panic goes on to
the caller. -/
def callHandlers {H σ : Type} (HandleEvent : HandleEventFn H σ) (event : eh.Event) :
    List H → BusWorld H σ → CallResult (BusWorld H σ)
  | [], st => CallResult.returned st
  | handler :: rest, st =>
    match HandleEvent handler event st with
    | CallResult.returned st1 => callHandlers HandleEvent event rest st1
    | CallResult.panicked st1 => CallResult.panicked st1

/-- The method `PublishEvent` (lines 46-57) on the bus `b` in the program state `w`.
The list of the event's type tag is read from the bus as it is at the call; the
global list is read when the second loop starts, from the bus as the first loop
left it. A panic in the first loop skips the second one. -/
def InternalEventBus.PublishEvent {H σ : Type} (HandleEvent : HandleEventFn H σ)
    (b : InternalEventBus H) (event : eh.Event) (w : σ) : CallResult (BusWorld H σ) :=
  let r1 : CallResult (BusWorld H σ) :=
    match b.eventHandlers event.EventType with
    | some handlers => callHandlers HandleEvent event handlers (b, w)
    | none => CallResult.returned (b, w)
  match r1 with
  | CallResult.returned st => callHandlers HandleEvent event st.1.globalHandlers st
  | CallResult.panicked st => CallResult.panicked st

/-- The method `AddHandler` (lines 60-68): creates the list of the event's type tag
when the map has none, then appends the handler to it. -/
def InternalEventBus.AddHandler {H : Type} (b : InternalEventBus H) (handler : H)
    (event : eh.Event) : InternalEventBus H :=
  let b1 : InternalEventBus H :=
    match b.eventHandlers event.EventType with
    | some _ => b
    | none =>
      { b with eventHandlers := fun k =>
          if k = event.EventType then some [] else b.eventHandlers k }
  { b1 with eventHandlers := fun k =>
      if k = event.EventType then
        some ((match b1.eventHandlers event.EventType with
                | some handlers => handlers
                | none => []) ++ [handler])
      else b1.eventHandlers k }

/-- The method `AddGlobalHandler` (lines 71-73). -/
def InternalEventBus.AddGlobalHandler {H : Type} (b : InternalEventBus H)
    (handler : H) : InternalEventBus H :=
  { b with globalHandlers := b.globalHandlers ++ [handler] }

/-! Vocabulary of the specification -/

/-- The versions `o+1, o+2, ..., o+k` in order: the entry at index `i` (from 0) is
`o+i+1`. -/
def versionsFrom (o : Int) (k : Nat) : List Int :=
  (List.range k).map (fun (i : Nat) => o + (i : Int) + 1)

/-- A batch that is valid for `o`: non-empty, every event of aggregate `X`, and
versions exactly `o+1, o+2, ...` in order. -/
def validBatch (X : eh.UUID) (o : Int) (batch : List eh.Event) : Prop :=
  batch ≠ [] ∧ (∀ e ∈ batch, e.AggregateID = X) ∧
    batch.map (fun e => e.Version) = versionsFrom o batch.length

instance (X : eh.UUID) (o : Int) (batch : List eh.Event) :
    Decidable (validBatch X o batch) := by
  unfold validBatch; infer_instance

/-- The longest prefix of the events whose aggregate id is `X`. -/
def runOfId (X : eh.UUID) (events : List eh.Event) : List eh.Event :=
  events.takeWhile (fun e => decide (e.AggregateID = X))

/-- The events of `events` up to, and without, the first one whose aggregate id
differs from that of the first event. -/
def leadingRun (events : List eh.Event) : List eh.Event :=
  match events with
  | [] => []
  | first :: _ => runOfId first.AggregateID events

/-- A call on the store: `Save` or `Load`, with its arguments. -/
inductive StoreCall where
  | save (ctx : context.Context) (events : List eh.Event) (originalVersion : Int)
  | load (ctx : context.Context) (aggregateType : eh.AggregateType) (id : eh.UUID)

/-- The store after one call. -/
def memory.EventStore.afterCall (s : memory.EventStore) : StoreCall → memory.EventStore
  | StoreCall.save ctx events originalVersion => (s.Save ctx events originalVersion).1
  | StoreCall.load ctx aggregateType id => (s.Load ctx aggregateType id).1

/-- The store after a sequence of calls, made one after the other. -/
def memory.EventStore.afterCalls (s : memory.EventStore) (calls : List StoreCall) :
    memory.EventStore :=
  calls.foldl memory.EventStore.afterCall s

/-- The store reached from the empty store (`NewEventStore`) by a sequence of `Save`
and `Load` calls. -/
def reachedBy (calls : List StoreCall) : memory.EventStore :=
  memory.NewEventStore.afterCalls calls

/-- The event at index `i` (from 0) offends the validation of `Save` for aggregate
`X` and original version `o`: its aggregate id is not `X` or its version is not
`o+i+1`. -/
def offendingAt (X : eh.UUID) (o : Int) (events : List eh.Event) (i : Nat) : Prop :=
  match events[i]? with
  | some e => e.AggregateID ≠ X ∨ e.Version ≠ o + (i : Int) + 1
  | none => False

instance (X : eh.UUID) (o : Int) (events : List eh.Event) (i : Nat) :
    Decidable (offendingAt X o events i) := by
  unfold offendingAt
  split <;> infer_instance

/-- A registration call on the bus: `AddHandler` with its sample event, or
`AddGlobalHandler`. -/
inductive Registration (H : Type) where
  | addHandler (handler : H) (event : eh.Event)
  | addGlobalHandler (handler : H)

/-- The bus after one registration call. -/
def InternalEventBus.afterRegistration {H : Type} (b : InternalEventBus H) :
    Registration H → InternalEventBus H
  | Registration.addHandler handler event => b.AddHandler handler event
  | Registration.addGlobalHandler handler => b.AddGlobalHandler handler

/-- The bus built from `NewInternalEventBus` by a sequence of registration calls. -/
def busAfter {H : Type} (regs : List (Registration H)) : InternalEventBus H :=
  regs.foldl InternalEventBus.afterRegistration NewInternalEventBus

/-- The handlers registered by `AddHandler` with a sample event of type tag `tag`, in
the order of their registration (one entry per call). -/
def registeredFor {H : Type} (tag : String) (regs : List (Registration H)) : List H :=
  regs.filterMap (fun r =>
    match r with
    | Registration.addHandler handler event =>
      if event.EventType = tag then some handler else none
    | Registration.addGlobalHandler _ => none)

/-- The handlers registered by `AddGlobalHandler`, in the order of their registration
(one entry per call). -/
def registeredGlobally {H : Type} (regs : List (Registration H)) : List H :=
  regs.filterMap (fun r =>
    match r with
    | Registration.addHandler _ _ => none
    | Registration.addGlobalHandler handler => some handler)

/-- The handlers `HandleEvent` with their calls recorded: the program state is
extended by the list of the calls `handler.HandleEvent(event)` made so far, in
order, and every call, returning or panicking, is added to it. -/
def traced {H σ : Type} (HandleEvent : HandleEventFn H σ) :
    HandleEventFn H (σ × List (H × eh.Event)) :=
  fun handler event st =>
    match HandleEvent handler event (st.1, st.2.1) with
    | CallResult.returned st1 =>
      CallResult.returned (st1.1, st1.2, st.2.2 ++ [(handler, event)])
    | CallResult.panicked st1 =>
      CallResult.panicked (st1.1, st1.2, st.2.2 ++ [(handler, event)])

/-- The calls `handler.HandleEvent(event)` that `PublishEvent(event)` makes on the bus
`b` in the program state `w`, in order. -/
def invocations {H σ : Type} (HandleEvent : HandleEventFn H σ) (b : InternalEventBus H)
    (event : eh.Event) (w : σ) : List (H × eh.Event) :=
  (b.PublishEvent (traced HandleEvent) event (w, [])).state.2.2

/-- No handler changes the bus: every call of `HandleEvent` leaves the registrations
as they were (all registration is done before publishing). -/
def leavesBus {H σ : Type} (HandleEvent : HandleEventFn H σ) : Prop :=
  ∀ (handler : H) (event : eh.Event) (b : InternalEventBus H) (w : σ),
    (HandleEvent handler event (b, w)).state.1 = b

/-- No handler panics: every call of `HandleEvent` ends by returning. -/
def alwaysReturns {H σ : Type} (HandleEvent : HandleEventFn H σ) : Prop :=
  ∀ (handler : H) (event : eh.Event) (st : BusWorld H σ),
    (HandleEvent handler event st).isReturned = true

/-- A record that is well formed for the key `X` it is stored under: its aggregate id
is `X`, its version is the number of its events, the versions of its events are
`1, 2, ..., n` in order, and all its events are of aggregate `X`. -/
def wellFormedRecord (X : eh.UUID) (a : memory.aggregateRecord) : Prop :=
  a.AggregateID = X ∧ a.Version = (a.Events.length : Int) ∧
    a.Events.map (fun d => d.Version) = versionsFrom 0 a.Events.length ∧
    ∀ d ∈ a.Events, d.AggregateID = X

/-- Every record of the store is well formed for its key. -/
def wellFormedStore (s : memory.EventStore) : Prop :=
  ∀ (ns : String) (id : eh.UUID) (a : memory.aggregateRecord),
    s.get ns id = some a → wellFormedRecord id a

/-- The Go read `b.eventHandlers[tag]`: the list of the tag, nil (empty) when the map
has no entry for it. -/
def InternalEventBus.handlersOf {H : Type} (b : InternalEventBus H) (tag : String) :
    List H :=
  match b.eventHandlers tag with
  | some handlers => handlers
  | none => []

/-- The number of `AddHandler(h, sample)` calls among `regs` whose sample event has
the type tag `tag`. -/
def addHandlerCalls {H : Type} [DecidableEq H] (h : H) (tag : String)
    (regs : List (Registration H)) : Nat :=
  regs.countP (fun r =>
    match r with
    | Registration.addHandler handler event =>
      decide (handler = h) && decide (event.EventType = tag)
    | Registration.addGlobalHandler _ => false)

/-- The number of `AddGlobalHandler(h)` calls among `regs`. -/
def addGlobalHandlerCalls {H : Type} [DecidableEq H] (h : H)
    (regs : List (Registration H)) : Nat :=
  regs.countP (fun r =>
    match r with
    | Registration.addHandler _ _ => false
    | Registration.addGlobalHandler handler => decide (handler = h))

/-- The number of calls `h.HandleEvent(...)` that `PublishEvent(event)` makes on the bus
`b` in the program state `w`. -/
def timesInvoked {H σ : Type} [DecidableEq H] (HandleEvent : HandleEventFn H σ)
    (b : InternalEventBus H) (event : eh.Event) (w : σ) (h : H) : Nat :=
  ((invocations HandleEvent b event w).map Prod.fst).count h

/-- The validation error in the result of `Save`, if it is one: `ErrInvalidEvent` or
`ErrIncorrectEventVersion`; `none` when the batch passed validation (the result is
`nil` or another error). -/
def validationError (r : Option eh.EventStoreError) : Option GoError :=
  match r with
  | some ⟨GoError.ErrInvalidEvent, _⟩ => some GoError.ErrInvalidEvent
  | some ⟨GoError.ErrIncorrectEventVersion, _⟩ => some GoError.ErrIncorrectEventVersion
  | _ => none

/-- The versions `o+1, o+2, ..., o+k` in order as Go's `int` computes them: a sum that
passes `MaxInt64` wraps to `MinInt64`. -/
def versionsFrom64 (o : Int) : Nat → List Int
  | 0 => []
  | k + 1 => wrapInt (o + 1) :: versionsFrom64 (wrapInt (o + 1)) k

/-- The event at index `i` (from 0) offends the validation of `Save` for aggregate
`X` and original version `o`, with `o+i+1` as Go's `int` computes it: its
aggregate id is not `X` or its version is not `o+i+1`. -/
def offendingAt64 (X : eh.UUID) (o : Int) (events : List eh.Event) (i : Nat) : Prop :=
  match events[i]? with
  | some e => e.AggregateID ≠ X ∨ e.Version ≠ wrapInt (o + (i : Int) + 1)
  | none => False

instance (X : eh.UUID) (o : Int) (events : List eh.Event) (i : Nat) :
    Decidable (offendingAt64 X o events i) := by
  unfold offendingAt64
  split <;> infer_instance

/-! Sample data of the scenarios -/

/-- A context without namespace: it resolves to the baseline namespace. -/
def ctxDefault : context.Context := { ns := none }

/-- An event of an `Order` aggregate with the given type tag, id and version. -/
def orderEvent (type : String) (id : eh.UUID) (version : Int) : eh.Event :=
  { EventType := type, Data := "", Timestamp := 0, AggregateType := "Order",
    AggregateID := id, Version := version }

/-- The store after `Save([Created@1, Shipped@2], 0)` on `ord-1`, from an empty store. -/
def storeOrd1 : memory.EventStore :=
  (memory.NewEventStore.Save ctxDefault
    [orderEvent "Created" "ord-1" 1, orderEvent "Shipped" "ord-1" 2] 0).1

/-- The record of `ord-1` in `storeOrd1`. -/
def recordOrd1 : memory.aggregateRecord :=
  { AggregateID := "ord-1", Version := 2,
    Events := [memory.toDbEvent (orderEvent "Created" "ord-1" 1),
               memory.toDbEvent (orderEvent "Shipped" "ord-1" 2)] }

/-- The calls of the scenario: save two events of `ord-1`, load it, append a third. -/
def callsOrd1 : List StoreCall :=
  [StoreCall.save ctxDefault
     [orderEvent "Created" "ord-1" 1, orderEvent "Shipped" "ord-1" 2] 0,
   StoreCall.load ctxDefault "Order" "ord-1",
   StoreCall.save ctxDefault [orderEvent "Cancelled" "ord-1" 3] 2]

/-- The record of `ord-1` after `callsOrd1`. -/
def recordOrd1After : memory.aggregateRecord :=
  { AggregateID := "ord-1", Version := 3,
    Events := [memory.toDbEvent (orderEvent "Created" "ord-1" 1),
               memory.toDbEvent (orderEvent "Shipped" "ord-1" 2),
               memory.toDbEvent (orderEvent "Cancelled" "ord-1" 3)] }

/-- A context that carries the namespace `n`. -/
def ctxOf (n : String) : context.Context := { ns := some n }

/-- The registrations of the fan-out scenario: `H1` for `Created`, `H2` globally. -/
def regsFanOut : List (Registration String) :=
  [Registration.addHandler "H1" (orderEvent "Created" "sample" 1),
   Registration.addGlobalHandler "H2"]

/-- The registrations of the duplicate scenario: `H1` twice for `Created`. -/
def regsTwice : List (Registration String) :=
  [Registration.addHandler "H1" (orderEvent "Created" "sample" 1),
   Registration.addHandler "H1" (orderEvent "Created" "sample" 1)]

/-- Handlers that return and change nothing. -/
def quietHandlers : HandleEventFn String Unit :=
  fun _ _ st => CallResult.returned st

/-- Handlers of which `bad` panics and the others return, none changing anything. -/
def panicsAt (bad : String) : HandleEventFn String Unit :=
  fun handler _ st =>
    if handler = bad then CallResult.panicked st else CallResult.returned st

/-- Handlers of which `who` registers `added` as a global handler on the bus and
returns, and the others return and change nothing. -/
def registersAt (who added : String) : HandleEventFn String Unit :=
  fun handler _ st =>
    if handler = who then CallResult.returned (st.1.AddGlobalHandler added, st.2)
    else CallResult.returned st

/-- An event of `ord-1` whose version is the smallest value of Go's `int`. -/
def eventAtMinInt : eh.Event := orderEvent "Created" "ord-1" MinInt64

/-! Lemmas on the version list -/

theorem versionsFrom_zero (o : Int) : versionsFrom o 0 = [] := rfl

theorem versionsFrom_succ (o : Int) (k : Nat) :
    versionsFrom o (k + 1) = (o + 1) :: versionsFrom (o + 1) k := by
  simp only [versionsFrom, List.range_succ_eq_map, List.map_cons, List.map_map]
  refine congrArg₂ List.cons (by simp) ?_
  apply List.map_congr_left
  intro i _
  simp only [Function.comp, Nat.succ_eq_add_one]
  push_cast
  ring

theorem length_versionsFrom (o : Int) (k : Nat) : (versionsFrom o k).length = k := by
  simp [versionsFrom]

/-! Lemmas on the loop of Save -/

theorem runOfId_eq_self {X : eh.UUID} {events : List eh.Event}
    (h : ∀ e ∈ events, e.AggregateID = X) : runOfId X events = events := by
  unfold runOfId
  rw [List.takeWhile_eq_self_iff]
  intro e he
  simpa using h e he

/-- What the loop computes: with `p` the longest prefix of events of aggregate `X`,
it reports `ErrIncorrectEventVersion` when the versions of `p` are not
`version+1, version+2, ...`, else `ErrInvalidEvent` when `p` is not the whole
batch, else the records of all events in order. -/
theorem buildRecords_eq (X : eh.UUID) (events : List eh.Event) (version : Int) :
    memory.buildRecords X events version =
      if (runOfId X events).map (fun e => e.Version)
          = versionsFrom version (runOfId X events).length then
        if (runOfId X events).length = events.length then
          Except.ok (events.map memory.toDbEvent)
        else Except.error GoError.ErrInvalidEvent
      else Except.error GoError.ErrIncorrectEventVersion := by
  induction events generalizing version with
  | nil => simp [memory.buildRecords, runOfId, versionsFrom_zero]
  | cons e rest ih =>
    by_cases hid : e.AggregateID = X
    · have hp : runOfId X (e :: rest) = e :: runOfId X rest := by
        simp [runOfId, List.takeWhile_cons, hid]
      rw [hp]
      by_cases hv : e.Version = version + 1
      · simp only [memory.buildRecords, hid, hv, ne_eq, not_true_eq_false, if_false,
          List.map_cons, List.length_cons, versionsFrom_succ, List.cons.injEq, true_and,
          add_left_inj, ih (version + 1)]
        split_ifs <;> rfl
      · have : ¬ (e.Version :: (runOfId X rest).map (fun e => e.Version)
            = versionsFrom version ((runOfId X rest).length + 1)) := by
          rw [versionsFrom_succ]
          intro h
          exact hv (List.cons.inj h).1
        simp [memory.buildRecords, hid, hv, this]
    · have hp : runOfId X (e :: rest) = [] := by
        simp [runOfId, List.takeWhile_cons, hid]
      simp [memory.buildRecords, hid, hp, versionsFrom_zero]

theorem buildRecords_valid {X : eh.UUID} {events : List eh.Event} {o : Int}
    (hid : ∀ e ∈ events, e.AggregateID = X)
    (hver : events.map (fun e => e.Version) = versionsFrom o events.length) :
    memory.buildRecords X events o = Except.ok (events.map memory.toDbEvent) := by
  rw [buildRecords_eq, runOfId_eq_self hid, if_pos hver, if_pos rfl]

theorem buildRecords_gap {X : eh.UUID} {events : List eh.Event} {o : Int}
    (hid : ∀ e ∈ events, e.AggregateID = X)
    (hver : events.map (fun e => e.Version) ≠ versionsFrom o events.length) :
    memory.buildRecords X events o = Except.error GoError.ErrIncorrectEventVersion := by
  rw [buildRecords_eq, runOfId_eq_self hid, if_neg hver]

/-! Lemmas on the maps of the store -/

theorem namespaceFor_snd (s : memory.EventStore) (ctx : context.Context) :
    (s.namespaceFor ctx).2 = eh.Namespace ctx := by
  simp only [memory.EventStore.namespaceFor]
  split <;> rfl

theorem namespaceFor_provisioned (s : memory.EventStore) (ctx : context.Context) :
    ((s.namespaceFor ctx).1.db (eh.Namespace ctx)).isSome = true := by
  simp only [memory.EventStore.namespaceFor]
  split
  · next h => simp [h]
  · simp

theorem namespaceFor_get (s : memory.EventStore) (ctx : context.Context)
    (ns : String) (id : eh.UUID) :
    (s.namespaceFor ctx).1.get ns id = s.get ns id := by
  simp only [memory.EventStore.namespaceFor]
  split
  · rfl
  · next h =>
    simp only [memory.EventStore.get]
    by_cases hk : ns = eh.Namespace ctx
    · simp [hk, h]
    · simp [hk]

theorem namespaceFor_of_isSome (s : memory.EventStore) (ctx : context.Context)
    (h : (s.db (eh.Namespace ctx)).isSome = true) : (s.namespaceFor ctx).1 = s := by
  simp only [memory.EventStore.namespaceFor]
  split
  · rfl
  · next hn => simp [hn] at h

theorem isSome_db_of_get {s : memory.EventStore} {ns : String} {id : eh.UUID}
    {a : memory.aggregateRecord} (h : s.get ns id = some a) :
    (s.db ns).isSome = true := by
  unfold memory.EventStore.get at h
  split at h
  · exact absurd h (by simp)
  · next hm => simp [hm]

theorem get_put_same (s : memory.EventStore) (ns : String) (id : eh.UUID)
    (a : memory.aggregateRecord) (h : (s.db ns).isSome = true) :
    (s.put ns id a).get ns id = some a := by
  unfold memory.EventStore.put
  split
  · next hn => simp [hn] at h
  · simp [memory.EventStore.get]

theorem get_put_of_ne (s : memory.EventStore) (ns : String) (id : eh.UUID)
    (a : memory.aggregateRecord) (ns' : String) (id' : eh.UUID)
    (h : ns' ≠ ns ∨ id' ≠ id) :
    (s.put ns id a).get ns' id' = s.get ns' id' := by
  unfold memory.EventStore.put
  split
  · rfl
  · next m hm =>
    simp only [memory.EventStore.get]
    by_cases hk : ns' = ns
    · subst hk
      have hid : id' ≠ id := by
        rcases h with h | h
        · exact absurd rfl h
        · exact h
      simp [hm, hid]
    · simp [hk]

theorem put_db_isSome (s : memory.EventStore) (ns : String) (id : eh.UUID)
    (a : memory.aggregateRecord) (ns' : String) :
    ((s.put ns id a).db ns').isSome = (s.db ns').isSome := by
  unfold memory.EventStore.put
  split
  · rfl
  · next m hm =>
    by_cases hk : ns' = ns
    · simp [hk, hm]
    · simp [hk]

/-! The branches of Save and Load -/

theorem validBatch_cons {X : eh.UUID} {o : Int} {batch : List eh.Event}
    (h : validBatch X o batch) :
    ∃ first rest, batch = first :: rest ∧ first.AggregateID = X := by
  obtain ⟨hne, hid, _⟩ := h
  cases batch with
  | nil => exact absurd rfl hne
  | cons first rest => exact ⟨first, rest, rfl, hid first (List.mem_cons_self _ _)⟩

theorem Save_rejected {s : memory.EventStore} {ctx : context.Context}
    {first : eh.Event} {rest : List eh.Event} {o : Int} {err : GoError}
    (h : memory.buildRecords first.AggregateID (first :: rest) o = Except.error err) :
    s.Save ctx (first :: rest) o = (s, some ⟨err, eh.Namespace ctx⟩) := by
  simp only [memory.EventStore.Save, h]

theorem Save_zero {s : memory.EventStore} {ctx : context.Context} {X : eh.UUID}
    {batch : List eh.Event} (h : validBatch X 0 batch) :
    s.Save ctx batch 0 =
      ((s.namespaceFor ctx).1.put (eh.Namespace ctx) X
        { AggregateID := X, Version := (batch.length : Int),
          Events := batch.map memory.toDbEvent }, none) := by
  obtain ⟨first, rest, rfl, hX⟩ := validBatch_cons h
  obtain ⟨_, hid, hver⟩ := h
  subst hX
  simp only [memory.EventStore.Save, buildRecords_valid hid hver, namespaceFor_snd,
    if_true, List.length_map]

theorem Save_append {s : memory.EventStore} {ctx : context.Context} {X : eh.UUID}
    {o : Int} {batch : List eh.Event} {a : memory.aggregateRecord}
    (h : validBatch X o batch) (ho : o ≠ 0)
    (ha : s.get (eh.Namespace ctx) X = some a) (hv : a.Version = o) :
    s.Save ctx batch o =
      ((s.namespaceFor ctx).1.put (eh.Namespace ctx) X
        { a with Version := a.Version + (batch.length : Int),
                 Events := a.Events ++ batch.map memory.toDbEvent }, none) := by
  obtain ⟨first, rest, rfl, hX⟩ := validBatch_cons h
  obtain ⟨_, hid, hver⟩ := h
  subst hX
  simp only [memory.EventStore.Save, buildRecords_valid hid hver, namespaceFor_snd,
    if_neg ho, namespaceFor_get, ha, hv, ne_eq, not_true_eq_false, if_false,
    List.length_map]

theorem Save_conflict {s : memory.EventStore} {ctx : context.Context} {X : eh.UUID}
    {o : Int} {batch : List eh.Event} {a : memory.aggregateRecord}
    (h : validBatch X o batch) (ho : o ≠ 0)
    (ha : s.get (eh.Namespace ctx) X = some a) (hv : a.Version ≠ o) :
    s.Save ctx batch o =
      (s, some ⟨GoError.ErrCouldNotSaveAggregate, eh.Namespace ctx⟩) := by
  obtain ⟨first, rest, rfl, hX⟩ := validBatch_cons h
  obtain ⟨_, hid, hver⟩ := h
  subst hX
  simp only [memory.EventStore.Save, buildRecords_valid hid hver, namespaceFor_snd,
    if_neg ho, namespaceFor_get, ha, ne_eq, hv, not_false_eq_true, if_true,
    namespaceFor_of_isSome s ctx (isSome_db_of_get ha)]

theorem Save_missing {s : memory.EventStore} {ctx : context.Context} {X : eh.UUID}
    {o : Int} {batch : List eh.Event}
    (h : validBatch X o batch) (ho : o ≠ 0)
    (ha : s.get (eh.Namespace ctx) X = none) :
    s.Save ctx batch o = ((s.namespaceFor ctx).1, none) := by
  obtain ⟨first, rest, rfl, hX⟩ := validBatch_cons h
  obtain ⟨_, hid, hver⟩ := h
  subst hX
  simp only [memory.EventStore.Save, buildRecords_valid hid hver, namespaceFor_snd,
    if_neg ho, namespaceFor_get, ha]

theorem asEvent_toDbEvent (e : eh.Event) :
    (memory.event.mk (memory.toDbEvent e)).asEvent = e := rfl

theorem map_asEvent_toDbEvent (batch : List eh.Event) :
    (batch.map memory.toDbEvent).map (fun d => (memory.event.mk d).asEvent) = batch := by
  simp [List.map_map, Function.comp_def, asEvent_toDbEvent]

theorem Load_snd (s : memory.EventStore) (ctx : context.Context)
    (t : eh.AggregateType) (id : eh.UUID) :
    (s.Load ctx t id).2 =
      (match s.get (eh.Namespace ctx) id with
        | none => ([], none)
        | some a => (a.Events.map (fun d => (memory.event.mk d).asEvent), none)) := by
  simp only [memory.EventStore.Load, namespaceFor_snd, namespaceFor_get]
  split <;> rfl

/-- Every unsuccessful Save returns the store it was given. -/
theorem Save_error_store (s : memory.EventStore) (ctx : context.Context)
    (batch : List eh.Event) (o : Int) (err : eh.EventStoreError)
    (h : (s.Save ctx batch o).2 = some err) : (s.Save ctx batch o).1 = s := by
  cases batch with
  | nil => rfl
  | cons first rest =>
    revert h
    simp only [memory.EventStore.Save]
    split
    · intro _; rfl
    · split
      · intro h; exact absurd h (by simp)
      · split
        · next a ha =>
          rw [namespaceFor_snd, namespaceFor_get] at ha
          split
          · intro _; exact namespaceFor_of_isSome s ctx (isSome_db_of_get ha)
          · intro h; exact absurd h (by simp)
        · intro h; exact absurd h (by simp)

theorem get_Save_append {s : memory.EventStore} {ctx : context.Context} {X : eh.UUID}
    {o : Int} {batch : List eh.Event} {a : memory.aggregateRecord}
    (h : validBatch X o batch) (ho : o ≠ 0)
    (ha : s.get (eh.Namespace ctx) X = some a) (hv : a.Version = o) :
    (s.Save ctx batch o).1.get (eh.Namespace ctx) X =
      some { a with Version := a.Version + (batch.length : Int),
                    Events := a.Events ++ batch.map memory.toDbEvent } := by
  rw [Save_append h ho ha hv]
  exact get_put_same _ _ _ _ (namespaceFor_provisioned s ctx)

theorem validBatch_length_pos {X : eh.UUID} {o : Int} {batch : List eh.Event}
    (h : validBatch X o batch) : 0 < batch.length :=
  List.length_pos.mpr h.1

/-- First writer wins: of two batches valid for the stored version `o ≠ 0`, saved one
after the other, the first is appended and the second is refused. -/
theorem Save_twice {s : memory.EventStore} {ctxA ctxB : context.Context} {X : eh.UUID}
    {o : Int} {A B : List eh.Event} {a : memory.aggregateRecord}
    (hns : eh.Namespace ctxA = eh.Namespace ctxB)
    (ha : s.get (eh.Namespace ctxA) X = some a) (hv : a.Version = o) (ho : o ≠ 0)
    (hA : validBatch X o A) (hB : validBatch X o B) :
    (s.Save ctxA A o).2 = none ∧
    ((s.Save ctxA A o).1.Save ctxB B o).2 =
      some ⟨GoError.ErrCouldNotSaveAggregate, eh.Namespace ctxB⟩ ∧
    (((s.Save ctxA A o).1.Save ctxB B o).1.get (eh.Namespace ctxA) X).map
      (fun r => r.Version) = some (o + (A.length : Int)) := by
  have h1 := get_Save_append hA ho ha hv
  have hpos := validBatch_length_pos hA
  have hne : a.Version + (A.length : Int) ≠ o := by
    rw [hv]; intro h; omega
  have h2 : (s.Save ctxA A o).1.Save ctxB B o =
      ((s.Save ctxA A o).1,
        some ⟨GoError.ErrCouldNotSaveAggregate, eh.Namespace ctxB⟩) :=
    Save_conflict hB ho (by rw [← hns]; exact h1) hne
  refine ⟨by rw [Save_append hA ho ha hv], by rw [h2], ?_⟩
  rw [h2, h1, hv]
  rfl

theorem Save_gap {s : memory.EventStore} {ctx : context.Context} {X : eh.UUID}
    {o : Int} {batch : List eh.Event} (hne : batch ≠ [])
    (hid : ∀ e ∈ batch, e.AggregateID = X)
    (hver : batch.map (fun e => e.Version) ≠ versionsFrom o batch.length) :
    s.Save ctx batch o = (s, some ⟨GoError.ErrIncorrectEventVersion, eh.Namespace ctx⟩) := by
  cases batch with
  | nil => exact absurd rfl hne
  | cons first rest =>
    have hX : first.AggregateID = X := hid first (List.mem_cons_self _ _)
    subst hX
    exact Save_rejected (buildRecords_gap hid hver)

theorem versionsFrom_ne_of_ne {v o : Int} (h : o ≠ v) {k : Nat} (hk : 0 < k) :
    versionsFrom v k ≠ versionsFrom o k := by
  obtain ⟨j, rfl⟩ := Nat.exists_eq_succ_of_ne_zero (Nat.pos_iff_ne_zero.mp hk)
  rw [Nat.succ_eq_add_one, versionsFrom_succ, versionsFrom_succ]
  intro heq
  have := (List.cons.inj heq).1
  omega

/-- In a batch with two different aggregate ids, the events of the first event's
aggregate do not make up the whole batch. -/
theorem runOfId_length_ne_of_mixed {first : eh.Event} {rest : List eh.Event}
    (h : ∃ e1 ∈ first :: rest, ∃ e2 ∈ first :: rest, e1.AggregateID ≠ e2.AggregateID) :
    (runOfId first.AggregateID (first :: rest)).length ≠ (first :: rest).length := by
  intro hlen
  have hself : runOfId first.AggregateID (first :: rest) = first :: rest :=
    (List.takeWhile_prefix _).eq_of_length hlen
  have hall : ∀ e ∈ first :: rest, e.AggregateID = first.AggregateID := by
    unfold runOfId at hself
    rw [List.takeWhile_eq_self_iff] at hself
    intro e he
    simpa using hself e he
  obtain ⟨e1, h1, e2, h2, hne⟩ := h
  exact hne ((hall e1 h1).trans (hall e2 h2).symm)

theorem Save_fst_of_error_get (s : memory.EventStore) (ctx : context.Context)
    (batch : List eh.Event) (o : Int) (err : eh.EventStoreError)
    (h : (s.Save ctx batch o).2 = some err) (ns : String) (id : eh.UUID) :
    (s.Save ctx batch o).1.get ns id = s.get ns id := by
  rw [Save_error_store s ctx batch o err h]

/-! What Save and Load do to each record -/

theorem versionsFrom_append (o : Int) (n k : Nat) :
    versionsFrom o (n + k) = versionsFrom o n ++ versionsFrom (o + (n : Int)) k := by
  simp only [versionsFrom, List.range_add, List.map_append, List.map_map]
  congr 1
  apply List.map_congr_left
  intro i _
  simp only [Function.comp]
  push_cast
  ring

theorem getElem?_versionsFrom {o : Int} {k i : Nat} {v : Int}
    (h : (versionsFrom o k)[i]? = some v) : v = o + (i : Int) + 1 := by
  unfold versionsFrom at h
  rw [List.getElem?_map] at h
  by_cases hi : i < k
  · rw [List.getElem?_range hi] at h
    simpa using h.symm
  · rw [List.getElem?_eq_none (by simpa using hi)] at h
    simp at h

theorem nodup_versionsFrom (o : Int) (k : Nat) : (versionsFrom o k).Nodup := by
  unfold versionsFrom
  refine List.Nodup.map ?_ (List.nodup_range k)
  intro i j hij
  simp only at hij
  omega

theorem buildRecords_ok_valid {X : eh.UUID} {events : List eh.Event} {o : Int}
    {ds : List memory.dbEvent} (h : memory.buildRecords X events o = Except.ok ds) :
    (∀ e ∈ events, e.AggregateID = X) ∧
      events.map (fun e => e.Version) = versionsFrom o events.length := by
  rw [buildRecords_eq] at h
  split_ifs at h with hver hlen
  have hself : runOfId X events = events :=
    (List.takeWhile_prefix _).eq_of_length hlen
  rw [hself] at hver
  refine ⟨?_, hver⟩
  unfold runOfId at hself
  rw [List.takeWhile_eq_self_iff] at hself
  intro e he
  simpa using hself e he

theorem Save_not_valid {s : memory.EventStore} {ctx : context.Context}
    {first : eh.Event} {rest : List eh.Event} {o : Int}
    (h : ¬ validBatch first.AggregateID o (first :: rest)) :
    (s.Save ctx (first :: rest) o).1 = s := by
  cases hb : memory.buildRecords first.AggregateID (first :: rest) o with
  | error err => rw [Save_rejected hb]
  | ok ds =>
    exact absurd ⟨List.cons_ne_nil _ _, (buildRecords_ok_valid hb).1,
      (buildRecords_ok_valid hb).2⟩ h

/-- The record that a successful `Save` of `batch` with original version `o` leaves
under its own key, given the record `old` found there before. -/
theorem get_Save_own {s : memory.EventStore} {ctx : context.Context} {X : eh.UUID}
    {o : Int} {batch : List eh.Event} (h : validBatch X o batch) :
    (s.Save ctx batch o).1.get (eh.Namespace ctx) X = s.get (eh.Namespace ctx) X ∨
    (o = 0 ∧ (s.Save ctx batch o).1.get (eh.Namespace ctx) X =
      some { AggregateID := X, Version := (batch.length : Int),
             Events := batch.map memory.toDbEvent }) ∨
    (o ≠ 0 ∧ ∃ a, s.get (eh.Namespace ctx) X = some a ∧ a.Version = o ∧
      (s.Save ctx batch o).1.get (eh.Namespace ctx) X =
        some { a with Version := a.Version + (batch.length : Int),
                      Events := a.Events ++ batch.map memory.toDbEvent }) := by
  by_cases ho : o = 0
  · subst ho
    refine Or.inr (Or.inl ⟨rfl, ?_⟩)
    rw [Save_zero h]
    exact get_put_same _ _ _ _ (namespaceFor_provisioned s ctx)
  · cases ha : s.get (eh.Namespace ctx) X with
    | none =>
      left
      rw [Save_missing h ho ha, namespaceFor_get, ha]
    | some a =>
      by_cases hv : a.Version = o
      · exact Or.inr (Or.inr ⟨ho, a, rfl, hv, get_Save_append h ho ha hv⟩)
      · left
        rw [Save_conflict h ho ha hv, ha]

/-- Save leaves every record but the one of its namespace and aggregate as it was. -/
theorem get_Save_of_ne (s : memory.EventStore) (ctx : context.Context)
    (first : eh.Event) (rest : List eh.Event) (o : Int) (ns : String) (id : eh.UUID)
    (hne : ns ≠ eh.Namespace ctx ∨ id ≠ first.AggregateID) :
    (s.Save ctx (first :: rest) o).1.get ns id = s.get ns id := by
  by_cases hvalid : validBatch first.AggregateID o (first :: rest)
  · by_cases ho : o = 0
    · subst ho
      rw [Save_zero hvalid, get_put_of_ne _ _ _ _ _ _ hne, namespaceFor_get]
    · cases ha : s.get (eh.Namespace ctx) first.AggregateID with
      | none => rw [Save_missing hvalid ho ha, namespaceFor_get]
      | some a =>
        by_cases hv : a.Version = o
        · rw [Save_append hvalid ho ha hv, get_put_of_ne _ _ _ _ _ _ hne,
            namespaceFor_get]
        · rw [Save_conflict hvalid ho ha hv]
  · rw [Save_not_valid hvalid]

theorem get_Save_other_namespace (s : memory.EventStore) (ctx : context.Context)
    (batch : List eh.Event) (o : Int) (ns : String) (id : eh.UUID)
    (hne : ns ≠ eh.Namespace ctx) :
    (s.Save ctx batch o).1.get ns id = s.get ns id := by
  cases batch with
  | nil => rfl
  | cons first rest => exact get_Save_of_ne s ctx first rest o ns id (Or.inl hne)

theorem Load_fst (s : memory.EventStore) (ctx : context.Context)
    (t : eh.AggregateType) (id : eh.UUID) :
    (s.Load ctx t id).1 = (s.namespaceFor ctx).1 := by
  simp only [memory.EventStore.Load]
  split <;> rfl

theorem get_Load (s : memory.EventStore) (ctx : context.Context)
    (t : eh.AggregateType) (id : eh.UUID) (ns : String) (id' : eh.UUID) :
    (s.Load ctx t id).1.get ns id' = s.get ns id' := by
  rw [Load_fst, namespaceFor_get]

/-! The invariant of the store -/

theorem wellFormedStore_new : wellFormedStore memory.NewEventStore := by
  intro ns id a h
  simp [memory.EventStore.get, memory.NewEventStore] at h

theorem wellFormedRecord_created {X : eh.UUID} {batch : List eh.Event}
    (h : validBatch X 0 batch) :
    wellFormedRecord X { AggregateID := X, Version := (batch.length : Int),
                         Events := batch.map memory.toDbEvent } := by
  obtain ⟨_, hid, hver⟩ := h
  refine ⟨rfl, by simp, ?_, ?_⟩
  · simpa [List.map_map, Function.comp_def, memory.toDbEvent] using hver
  · intro d hd
    obtain ⟨e, he, rfl⟩ := List.mem_map.mp hd
    exact hid e he

theorem wellFormedRecord_appended {X : eh.UUID} {o : Int} {batch : List eh.Event}
    {a : memory.aggregateRecord} (h : validBatch X o batch)
    (ha : wellFormedRecord X a) (hv : a.Version = o) :
    wellFormedRecord X { a with Version := a.Version + (batch.length : Int),
                                Events := a.Events ++ batch.map memory.toDbEvent } := by
  obtain ⟨_, hid, hver⟩ := h
  obtain ⟨haid, hlen, hvers, hids⟩ := ha
  have ho : o = (a.Events.length : Int) := by rw [← hv, hlen]
  refine ⟨haid, ?_, ?_, ?_⟩
  · simp only [List.length_append, List.length_map]
    rw [hlen]
    push_cast
    rfl
  · simp only [List.map_append, List.length_append, List.length_map, List.map_map]
    rw [versionsFrom_append, hvers, zero_add, ← ho]
    congr 1
  · intro d hd
    rcases List.mem_append.mp hd with hd | hd
    · exact hids d hd
    · obtain ⟨e, he, rfl⟩ := List.mem_map.mp hd
      exact hid e he

theorem wellFormedStore_Save {s : memory.EventStore} (hs : wellFormedStore s)
    (ctx : context.Context) (batch : List eh.Event) (o : Int) :
    wellFormedStore (s.Save ctx batch o).1 := by
  intro ns id a hget
  cases batch with
  | nil => exact hs ns id a hget
  | cons first rest =>
    by_cases hkey : ns = eh.Namespace ctx ∧ id = first.AggregateID
    · obtain ⟨rfl, rfl⟩ := hkey
      by_cases hvalid : validBatch first.AggregateID o (first :: rest)
      · rcases @get_Save_own s ctx _ _ _ hvalid with h | ⟨ho, h⟩ | ⟨_, b, hb, hv, h⟩
        · rw [h] at hget
          exact hs _ _ a hget
        · rw [h] at hget
          cases hget
          subst ho
          exact wellFormedRecord_created hvalid
        · rw [h] at hget
          cases hget
          exact wellFormedRecord_appended hvalid (hs _ _ b hb) hv
      · rw [Save_not_valid hvalid] at hget
        exact hs _ _ a hget
    · have hne : ns ≠ eh.Namespace ctx ∨ id ≠ first.AggregateID := by
        by_contra hcon
        push_neg at hcon
        exact hkey hcon
      rw [get_Save_of_ne s ctx first rest o ns id hne] at hget
      exact hs ns id a hget

theorem wellFormedStore_afterCall {s : memory.EventStore} (hs : wellFormedStore s)
    (c : StoreCall) : wellFormedStore (s.afterCall c) := by
  cases c with
  | save ctx events o => exact wellFormedStore_Save hs ctx events o
  | load ctx t id =>
    intro ns id' a hget
    simp only [memory.EventStore.afterCall] at hget
    rw [get_Load] at hget
    exact hs ns id' a hget

theorem wellFormedStore_afterCalls (calls : List StoreCall) :
    ∀ {s : memory.EventStore}, wellFormedStore s → wellFormedStore (s.afterCalls calls) := by
  induction calls with
  | nil => intro s hs; exact hs
  | cons c rest ih =>
    intro s hs
    exact ih (wellFormedStore_afterCall hs c)

theorem wellFormedStore_reachedBy (calls : List StoreCall) :
    wellFormedStore (reachedBy calls) :=
  wellFormedStore_afterCalls calls wellFormedStore_new

/-! The event bus -/

theorem handlersOf_AddHandler {H : Type} (b : InternalEventBus H) (handler : H)
    (event : eh.Event) (tag : String) :
    (b.AddHandler handler event).handlersOf tag =
      b.handlersOf tag ++ (if event.EventType = tag then [handler] else []) := by
  unfold InternalEventBus.AddHandler InternalEventBus.handlersOf
  by_cases htag : event.EventType = tag
  · subst htag
    cases hb : b.eventHandlers event.EventType <;> simp [hb]
  · have htag' : ¬ tag = event.EventType := fun h => htag h.symm
    cases hb : b.eventHandlers event.EventType <;> simp [htag, htag']

theorem globalHandlers_AddHandler {H : Type} (b : InternalEventBus H) (handler : H)
    (event : eh.Event) :
    (b.AddHandler handler event).globalHandlers = b.globalHandlers := by
  unfold InternalEventBus.AddHandler
  cases hb : b.eventHandlers event.EventType <;> rfl

theorem handlersOf_afterRegistrations {H : Type} (tag : String)
    (regs : List (Registration H)) :
    ∀ (b : InternalEventBus H),
      (regs.foldl InternalEventBus.afterRegistration b).handlersOf tag =
        b.handlersOf tag ++ registeredFor tag regs := by
  induction regs with
  | nil => intro b; simp [registeredFor]
  | cons r rest ih =>
    intro b
    rw [List.foldl_cons, ih]
    cases r with
    | addHandler handler event =>
      simp only [InternalEventBus.afterRegistration, handlersOf_AddHandler,
        registeredFor, List.filterMap_cons, List.append_assoc]
      by_cases htag : event.EventType = tag <;> simp [htag]
    | addGlobalHandler handler =>
      simp [InternalEventBus.afterRegistration, InternalEventBus.AddGlobalHandler,
        InternalEventBus.handlersOf, registeredFor, List.filterMap_cons]

theorem globalHandlers_afterRegistrations {H : Type} (regs : List (Registration H)) :
    ∀ (b : InternalEventBus H),
      (regs.foldl InternalEventBus.afterRegistration b).globalHandlers =
        b.globalHandlers ++ registeredGlobally regs := by
  induction regs with
  | nil => intro b; simp [registeredGlobally]
  | cons r rest ih =>
    intro b
    rw [List.foldl_cons, ih]
    cases r with
    | addHandler handler event =>
      simp [InternalEventBus.afterRegistration, globalHandlers_AddHandler,
        registeredGlobally, List.filterMap_cons]
    | addGlobalHandler handler =>
      simp [InternalEventBus.afterRegistration, InternalEventBus.AddGlobalHandler,
        registeredGlobally, List.filterMap_cons]

theorem handlersOf_busAfter {H : Type} (tag : String) (regs : List (Registration H)) :
    (busAfter regs).handlersOf tag = registeredFor tag regs := by
  unfold busAfter
  rw [handlersOf_afterRegistrations]
  rfl

theorem globalHandlers_busAfter {H : Type} (regs : List (Registration H)) :
    (busAfter regs).globalHandlers = registeredGlobally regs := by
  unfold busAfter
  rw [globalHandlers_afterRegistrations]
  rfl

theorem callHandlers_append {H σ : Type} (HandleEvent : HandleEventFn H σ)
    (event : eh.Event) :
    ∀ (l1 l2 : List H) (st : BusWorld H σ),
      callHandlers HandleEvent event (l1 ++ l2) st =
        (match callHandlers HandleEvent event l1 st with
          | CallResult.returned st1 => callHandlers HandleEvent event l2 st1
          | CallResult.panicked st1 => CallResult.panicked st1) := by
  intro l1
  induction l1 with
  | nil => intro l2 st; rfl
  | cons h t ih =>
    intro l2 st
    simp only [List.cons_append, callHandlers]
    cases HandleEvent h event st with
    | returned st1 => exact ih l2 st1
    | panicked st1 => rfl

theorem callHandlers_bus {H σ : Type} {HandleEvent : HandleEventFn H σ}
    (hframe : leavesBus HandleEvent) (event : eh.Event) :
    ∀ (hs : List H) (st : BusWorld H σ),
      (callHandlers HandleEvent event hs st).state.1 = st.1 := by
  intro hs
  induction hs with
  | nil => intro st; rfl
  | cons h t ih =>
    intro st
    have hstep := hframe h event st.1 st.2
    simp only [callHandlers]
    cases hr : HandleEvent h event st with
    | returned st1 =>
      rw [show ((st.1, st.2) : BusWorld H σ) = st from rfl, hr] at hstep
      simp only
      rw [ih st1]
      exact hstep
    | panicked st1 =>
      rw [show ((st.1, st.2) : BusWorld H σ) = st from rfl, hr] at hstep
      exact hstep

/-- When no handler changes the bus, the two loops of `PublishEvent` are one loop over
the handlers of the event's tag followed by the global handlers. -/
theorem PublishEvent_eq_callHandlers {H σ : Type} {HandleEvent : HandleEventFn H σ}
    (hframe : leavesBus HandleEvent) (b : InternalEventBus H) (event : eh.Event)
    (w : σ) :
    b.PublishEvent HandleEvent event w =
      callHandlers HandleEvent event
        (b.handlersOf event.EventType ++ b.globalHandlers) (b, w) := by
  rw [callHandlers_append]
  unfold InternalEventBus.PublishEvent InternalEventBus.handlersOf
  cases hb : b.eventHandlers event.EventType with
  | none => rfl
  | some hs =>
    simp only
    have hbus := callHandlers_bus hframe event hs (b, w)
    cases hr : callHandlers HandleEvent event hs (b, w) with
    | returned st =>
      rw [hr] at hbus
      simp only [CallResult.state] at hbus
      simp only [hbus]
    | panicked st => rfl

theorem leavesBus_traced {H σ : Type} {HandleEvent : HandleEventFn H σ}
    (hframe : leavesBus HandleEvent) : leavesBus (traced HandleEvent) := by
  intro h event b w
  have hstep := hframe h event b w.1
  simp only [traced]
  cases hr : HandleEvent h event (b, w.1) with
  | returned st1 => rw [hr] at hstep; exact hstep
  | panicked st1 => rw [hr] at hstep; exact hstep

/-- A loop over recorded handlers adds to the record the calls of a prefix of the
list, the whole list when the loop returns; and it returns exactly when the loop
over the handlers themselves does. -/
theorem callHandlers_traced {H σ : Type} (HandleEvent : HandleEventFn H σ)
    (event : eh.Event) :
    ∀ (hs : List H) (st : BusWorld H (σ × List (H × eh.Event))),
      ∃ n, n ≤ hs.length ∧
        (callHandlers (traced HandleEvent) event hs st).state.2.2 =
          st.2.2 ++ (hs.take n).map (fun h => (h, event)) ∧
        ((callHandlers (traced HandleEvent) event hs st).isReturned = true →
          n = hs.length) ∧
        (callHandlers (traced HandleEvent) event hs st).isReturned =
          (callHandlers HandleEvent event hs (st.1, st.2.1)).isReturned := by
  intro hs
  induction hs with
  | nil =>
    intro st
    exact ⟨0, Nat.le_refl _, by simp [callHandlers, CallResult.state], fun _ => rfl, rfl⟩
  | cons h t ih =>
    intro st
    cases hr : HandleEvent h event (st.1, st.2.1) with
    | returned st1 =>
      obtain ⟨n, hn, hlog, hret, heq⟩ := ih (st1.1, st1.2, st.2.2 ++ [(h, event)])
      refine ⟨n + 1, Nat.succ_le_succ hn, ?_, ?_, ?_⟩
      · simp only [callHandlers, traced, hr]
        rw [hlog]
        simp
      · intro hret'
        simp only [callHandlers, traced, hr] at hret'
        rw [hret hret']
        rfl
      · simp only [callHandlers, traced, hr]
        exact heq
    | panicked st1 =>
      refine ⟨1, Nat.succ_le_succ (Nat.zero_le _), ?_, ?_, ?_⟩
      · simp [callHandlers, traced, hr, CallResult.state]
      · intro hret'
        simp [callHandlers, traced, hr, CallResult.isReturned] at hret'
      · simp [callHandlers, traced, hr, CallResult.isReturned]

/-- The calls of `PublishEvent` when no handler changes the bus: those of a prefix of
the handlers of the event's tag followed by the global handlers, the whole of it
exactly when no call panics on the way. -/
theorem invocations_eq {H σ : Type} {HandleEvent : HandleEventFn H σ}
    (hframe : leavesBus HandleEvent) (b : InternalEventBus H) (event : eh.Event)
    (w : σ) :
    ∃ n, n ≤ (b.handlersOf event.EventType ++ b.globalHandlers).length ∧
      invocations HandleEvent b event w =
        ((b.handlersOf event.EventType ++ b.globalHandlers).take n).map
          (fun h => (h, event)) ∧
      ((b.PublishEvent HandleEvent event w).isReturned = true →
        n = (b.handlersOf event.EventType ++ b.globalHandlers).length) := by
  obtain ⟨n, hn, hlog, hret, heq⟩ := callHandlers_traced HandleEvent event
    (b.handlersOf event.EventType ++ b.globalHandlers) (b, w, [])
  refine ⟨n, hn, ?_, ?_⟩
  · unfold invocations
    rw [PublishEvent_eq_callHandlers (leavesBus_traced hframe), hlog]
    simp
  · intro h
    apply hret
    rw [heq]
    rw [PublishEvent_eq_callHandlers hframe] at h
    exact h

theorem isReturned_callHandlers_of_alwaysReturns {H σ : Type}
    {HandleEvent : HandleEventFn H σ} (hnp : alwaysReturns HandleEvent)
    (event : eh.Event) :
    ∀ (hs : List H) (st : BusWorld H σ),
      (callHandlers HandleEvent event hs st).isReturned = true := by
  intro hs
  induction hs with
  | nil => intro st; rfl
  | cons h t ih =>
    intro st
    have hstep := hnp h event st
    simp only [callHandlers]
    cases hr : HandleEvent h event st with
    | returned st1 => exact ih st1
    | panicked st1 =>
      rw [hr] at hstep
      simp [CallResult.isReturned] at hstep

theorem count_registeredFor {H : Type} [DecidableEq H] (h : H) (tag : String)
    (regs : List (Registration H)) :
    (registeredFor tag regs).count h = addHandlerCalls h tag regs := by
  induction regs with
  | nil => rfl
  | cons r rest ih =>
    cases r with
    | addHandler handler event =>
      by_cases htag : event.EventType = tag
      · by_cases hh : handler = h
        · simp [registeredFor, addHandlerCalls, List.filterMap_cons, htag, hh] at ih ⊢
          exact ih
        · simp [registeredFor, addHandlerCalls, List.filterMap_cons, htag, hh,
            List.count_cons] at ih ⊢
          exact ih
      · simp [registeredFor, addHandlerCalls, List.filterMap_cons, htag] at ih ⊢
        exact ih
    | addGlobalHandler handler =>
      simp [registeredFor, addHandlerCalls, List.filterMap_cons] at ih ⊢
      exact ih

theorem count_registeredGlobally {H : Type} [DecidableEq H] (h : H)
    (regs : List (Registration H)) :
    (registeredGlobally regs).count h = addGlobalHandlerCalls h regs := by
  induction regs with
  | nil => rfl
  | cons r rest ih =>
    cases r with
    | addHandler handler event =>
      simp [registeredGlobally, addGlobalHandlerCalls, List.filterMap_cons] at ih ⊢
      exact ih
    | addGlobalHandler handler =>
      by_cases hh : handler = h
      · simp [registeredGlobally, addGlobalHandlerCalls, List.filterMap_cons, hh] at ih ⊢
        exact ih
      · simp [registeredGlobally, addGlobalHandlerCalls, List.filterMap_cons, hh,
          List.count_cons] at ih ⊢
        exact ih

/-! The arithmetic of Go's `int` and the loop of Save64 -/

theorem wrapInt_of_inRange {x : Int} (h1 : MinInt64 ≤ x) (h2 : x ≤ MaxInt64) :
    wrapInt x = x := by
  unfold wrapInt
  unfold MinInt64 at h1
  unfold MaxInt64 at h2
  omega

theorem wrapInt_wrapInt_add (a b : Int) : wrapInt (wrapInt a + b) = wrapInt (a + b) := by
  unfold wrapInt
  omega

theorem versionsFrom64_eq_versionsFrom :
    ∀ (k : Nat) (o : Int), MinInt64 ≤ o → o + (k : Int) ≤ MaxInt64 →
      versionsFrom64 o k = versionsFrom o k := by
  intro k
  induction k with
  | zero => intro o _ _; rfl
  | succ k ih =>
    intro o hlo hhi
    have hw : wrapInt (o + 1) = o + 1 :=
      wrapInt_of_inRange (by omega) (by push_cast at hhi; omega)
    rw [versionsFrom_succ]
    simp only [versionsFrom64, hw]
    rw [ih (o + 1) (by omega) (by push_cast at hhi; omega)]

theorem buildRecords64_eq_buildRecords (X : eh.UUID) :
    ∀ (events : List eh.Event) (o : Int), MinInt64 ≤ o →
      o + (events.length : Int) ≤ MaxInt64 →
      memory.buildRecords64 X events o = memory.buildRecords X events o := by
  intro events
  induction events with
  | nil => intro o _ _; rfl
  | cons e rest ih =>
    intro o hlo hhi
    simp only [List.length_cons] at hhi
    have hw : wrapInt (o + 1) = o + 1 :=
      wrapInt_of_inRange (by omega) (by push_cast at hhi; omega)
    simp only [memory.buildRecords64, memory.buildRecords, hw,
      ih (o + 1) (by omega) (by push_cast at hhi; omega)]

theorem buildRecords_ok_eq {X : eh.UUID} {events : List eh.Event} {o : Int}
    {ds : List memory.dbEvent} (h : memory.buildRecords X events o = Except.ok ds) :
    ds = events.map memory.toDbEvent := by
  rw [buildRecords_eq] at h
  split_ifs at h
  cases h
  rfl

/-- `Save64` and `Save` agree when `originalVersion + len(events)` does not pass
`MaxInt64`: no sum of the method wraps. -/
theorem Save64_eq_Save (s : memory.EventStore) (ctx : context.Context)
    (batch : List eh.Event) (o : Int) (hlo : MinInt64 ≤ o)
    (hhi : o + (batch.length : Int) ≤ MaxInt64) :
    s.Save64 ctx batch o = s.Save ctx batch o := by
  cases batch with
  | nil => rfl
  | cons first rest =>
    simp only [memory.EventStore.Save64, memory.EventStore.Save,
      buildRecords64_eq_buildRecords first.AggregateID (first :: rest) o hlo hhi]
    cases hb : memory.buildRecords first.AggregateID (first :: rest) o with
    | error err => rfl
    | ok ds =>
      have hds : (ds.length : Int) = ((first :: rest).length : Int) := by
        rw [buildRecords_ok_eq hb, List.length_map]
      simp only
      by_cases ho : o = 0
      · simp only [ho, if_true]
      · simp only [ho, if_false]
        cases hget : (s.namespaceFor ctx).1.get (s.namespaceFor ctx).2
            first.AggregateID with
        | none => rfl
        | some a =>
          simp only
          by_cases hv : a.Version = o
          · have hw : wrapInt (a.Version + (ds.length : Int)) =
                a.Version + (ds.length : Int) := by
              rw [hv, hds]
              exact wrapInt_of_inRange (by omega) hhi
            simp only [hv, ne_eq, not_true_eq_false, if_false]
            rw [← hv, hw]
          · simp only [ne_eq, hv, not_false_eq_true, if_true]

/-- On a batch that is valid for `o` and holds only versions that Go's `int` can
hold, `Save64` and `Save` agree: the versions reach `o + len(batch)`, so no sum
passes `MaxInt64`. -/
theorem Save64_eq_Save_of_valid (s : memory.EventStore) (ctx : context.Context)
    (X : eh.UUID) (o : Int) (batch : List eh.Event) (hlo : MinInt64 ≤ o)
    (hvalid : validBatch X o batch) (hhi : ∀ e ∈ batch, e.Version ≤ MaxInt64) :
    s.Save64 ctx batch o = s.Save ctx batch o := by
  apply Save64_eq_Save s ctx batch o hlo
  obtain ⟨hne, _, hver⟩ := hvalid
  have hpos : 0 < batch.length := List.length_pos.mpr hne
  have hmem : o + ((batch.length - 1 : Nat) : Int) + 1 ∈ versionsFrom o batch.length := by
    unfold versionsFrom
    exact List.mem_map.mpr ⟨batch.length - 1, List.mem_range.mpr (by omega), rfl⟩
  rw [← hver] at hmem
  obtain ⟨e, he, hev⟩ := List.mem_map.mp hmem
  have hle := hhi e he
  omega

/-- What the loop of `Save64` computes: with `p` the longest prefix of events of
aggregate `X`, it reports `ErrIncorrectEventVersion` when the versions of `p` are
not `version+1, version+2, ...` in Go's `int`, else `ErrInvalidEvent` when `p` is
not the whole batch, else the records of all events in order. -/
theorem buildRecords64_eq (X : eh.UUID) (events : List eh.Event) (version : Int) :
    memory.buildRecords64 X events version =
      if (runOfId X events).map (fun e => e.Version)
          = versionsFrom64 version (runOfId X events).length then
        if (runOfId X events).length = events.length then
          Except.ok (events.map memory.toDbEvent)
        else Except.error GoError.ErrInvalidEvent
      else Except.error GoError.ErrIncorrectEventVersion := by
  induction events generalizing version with
  | nil => simp [memory.buildRecords64, runOfId, versionsFrom64]
  | cons e rest ih =>
    by_cases hid : e.AggregateID = X
    · have hp : runOfId X (e :: rest) = e :: runOfId X rest := by
        simp [runOfId, List.takeWhile_cons, hid]
      rw [hp]
      by_cases hv : e.Version = wrapInt (version + 1)
      · simp only [memory.buildRecords64, hid, hv, ne_eq, not_true_eq_false, if_false,
          List.map_cons, List.length_cons, versionsFrom64, List.cons.injEq, true_and,
          add_left_inj, ih (wrapInt (version + 1))]
        split_ifs <;> rfl
      · have : ¬ (e.Version :: (runOfId X rest).map (fun e => e.Version)
            = versionsFrom64 version ((runOfId X rest).length + 1)) := by
          simp only [versionsFrom64]
          intro h
          exact hv (List.cons.inj h).1
        simp [memory.buildRecords64, hid, hv, this]
    · have hp : runOfId X (e :: rest) = [] := by
        simp [runOfId, List.takeWhile_cons, hid]
      simp [memory.buildRecords64, hid, hp, versionsFrom64]

theorem Save64_rejected {s : memory.EventStore} {ctx : context.Context}
    {first : eh.Event} {rest : List eh.Event} {o : Int} {err : GoError}
    (h : memory.buildRecords64 first.AggregateID (first :: rest) o = Except.error err) :
    s.Save64 ctx (first :: rest) o = (s, some ⟨err, eh.Namespace ctx⟩) := by
  simp only [memory.EventStore.Save64, h]

theorem Save64_gap {s : memory.EventStore} {ctx : context.Context} {X : eh.UUID}
    {o : Int} {batch : List eh.Event} (hne : batch ≠ [])
    (hid : ∀ e ∈ batch, e.AggregateID = X)
    (hver : batch.map (fun e => e.Version) ≠ versionsFrom64 o batch.length) :
    s.Save64 ctx batch o =
      (s, some ⟨GoError.ErrIncorrectEventVersion, eh.Namespace ctx⟩) := by
  cases batch with
  | nil => exact absurd rfl hne
  | cons first rest =>
    have hX : first.AggregateID = X := hid first (List.mem_cons_self _ _)
    subst hX
    apply Save64_rejected
    rw [buildRecords64_eq, runOfId_eq_self hid, if_neg hver]

/-- The outcome of `Save64` on a batch with two different aggregate ids: the store is
returned as it was, with `ErrInvalidEvent` when the versions of the leading events
of the first aggregate are `o+1, o+2, ...` in Go's `int`, and
`ErrIncorrectEventVersion` when not. -/
theorem Save64_mixed {s : memory.EventStore} {ctx : context.Context} {o : Int}
    {batch : List eh.Event}
    (h : ∃ e1 ∈ batch, ∃ e2 ∈ batch, e1.AggregateID ≠ e2.AggregateID) :
    s.Save64 ctx batch o =
      (s, some ⟨(if (leadingRun batch).map (fun e => e.Version)
                    = versionsFrom64 o (leadingRun batch).length
                 then GoError.ErrInvalidEvent else GoError.ErrIncorrectEventVersion),
                eh.Namespace ctx⟩) := by
  cases batch with
  | nil =>
    obtain ⟨e1, h1, _⟩ := h
    exact absurd h1 (List.not_mem_nil e1)
  | cons first rest =>
    have hlen := runOfId_length_ne_of_mixed h
    apply Save64_rejected
    rw [buildRecords64_eq]
    simp only [leadingRun, if_neg hlen]
    split_ifs <;> rfl

/-! The first offending event -/

theorem offendingAt64_zero (X : eh.UUID) (o : Int) (e : eh.Event)
    (rest : List eh.Event) :
    offendingAt64 X o (e :: rest) 0 ↔ (e.AggregateID ≠ X ∨ e.Version ≠ wrapInt (o + 1)) := by
  simp [offendingAt64]

theorem offendingAt64_succ (X : eh.UUID) (o : Int) (e : eh.Event)
    (rest : List eh.Event) (i : Nat) :
    offendingAt64 X o (e :: rest) (i + 1) ↔ offendingAt64 X (wrapInt (o + 1)) rest i := by
  unfold offendingAt64
  have harith : wrapInt (o + ((i + 1 : Nat) : Int) + 1) =
      wrapInt (wrapInt (o + 1) + (i : Int) + 1) := by
    unfold wrapInt
    push_cast
    omega
  simp only [List.getElem?_cons_succ, harith]

/-- The loop stops at the first offending event, with `ErrInvalidEvent` when its
aggregate id is wrong and `ErrIncorrectEventVersion` otherwise. -/
theorem buildRecords64_first_offending (X : eh.UUID) :
    ∀ (events : List eh.Event) (o : Int) (i : Nat) (e : eh.Event),
      events[i]? = some e →
      (e.AggregateID ≠ X ∨ e.Version ≠ wrapInt (o + (i : Int) + 1)) →
      (∀ j, j < i → ¬ offendingAt64 X o events j) →
      memory.buildRecords64 X events o =
        Except.error (if e.AggregateID ≠ X then GoError.ErrInvalidEvent
                      else GoError.ErrIncorrectEventVersion) := by
  intro events
  induction events with
  | nil => intro o i e he; simp at he
  | cons e0 rest ih =>
    intro o i e he hoff hmin
    cases i with
    | zero =>
      simp only [List.getElem?_cons_zero, Option.some.injEq] at he
      subst he
      by_cases hid : e0.AggregateID = X
      · have hv : e0.Version ≠ wrapInt (o + 1) := by
          rcases hoff with h | h
          · exact absurd hid h
          · simpa using h
        simp [memory.buildRecords64, hid, hv]
      · simp [memory.buildRecords64, hid]
    | succ i =>
      have h0 : ¬ offendingAt64 X o (e0 :: rest) 0 := hmin 0 (Nat.succ_pos i)
      rw [offendingAt64_zero] at h0
      push_neg at h0
      obtain ⟨hid0, hv0⟩ := h0
      have harith : wrapInt (o + ((i + 1 : Nat) : Int) + 1) =
          wrapInt (wrapInt (o + 1) + (i : Int) + 1) := by
        unfold wrapInt
        push_cast
        omega
      have hrec := ih (wrapInt (o + 1)) i e (by simpa using he)
        (by
          rcases hoff with h | h
          · exact Or.inl h
          · right
            rw [← harith]
            exact h)
        (fun j hj hoffj =>
          hmin (j + 1) (Nat.succ_lt_succ hj)
            ((offendingAt64_succ X o e0 rest j).mpr hoffj))
      simp only [memory.buildRecords64, hid0, hv0, ne_eq, not_true_eq_false, if_false,
        hrec]

/-- The loop completes exactly when no event offends. -/
theorem buildRecords64_ok_iff (X : eh.UUID) :
    ∀ (events : List eh.Event) (o : Int),
      (∃ ds, memory.buildRecords64 X events o = Except.ok ds) ↔
        ∀ i, ¬ offendingAt64 X o events i := by
  intro events
  induction events with
  | nil =>
    intro o
    constructor
    · intro _ i hoff
      simp [offendingAt64] at hoff
    · intro _
      exact ⟨[], rfl⟩
  | cons e0 rest ih =>
    intro o
    by_cases h0 : e0.AggregateID ≠ X ∨ e0.Version ≠ wrapInt (o + 1)
    · constructor
      · rintro ⟨ds, hds⟩
        have herr := buildRecords64_first_offending X (e0 :: rest) o 0 e0 (by simp)
          (by simpa using h0) (fun j hj => absurd hj (Nat.not_lt_zero j))
        rw [herr] at hds
        cases hds
      · intro hno
        exact absurd ((offendingAt64_zero X o e0 rest).mpr h0) (hno 0)
    · push_neg at h0
      obtain ⟨hid0, hv0⟩ := h0
      have hstep : (∃ ds, memory.buildRecords64 X (e0 :: rest) o = Except.ok ds) ↔
          ∃ ds, memory.buildRecords64 X rest (wrapInt (o + 1)) = Except.ok ds := by
        simp only [memory.buildRecords64, hid0, hv0, ne_eq, not_true_eq_false, if_false]
        cases memory.buildRecords64 X rest (wrapInt (o + 1)) <;> simp
      rw [hstep, ih (wrapInt (o + 1))]
      constructor
      · intro hno i
        cases i with
        | zero =>
          rw [offendingAt64_zero]
          push_neg
          exact ⟨hid0, hv0⟩
        | succ i =>
          rw [offendingAt64_succ]
          exact hno i
      · intro hno i
        rw [← offendingAt64_succ X o e0 rest i]
        exact hno (i + 1)

theorem buildRecords64_error_cases {X : eh.UUID} {events : List eh.Event} {o : Int}
    {err : GoError} (h : memory.buildRecords64 X events o = Except.error err) :
    err = GoError.ErrInvalidEvent ∨ err = GoError.ErrIncorrectEventVersion := by
  rw [buildRecords64_eq] at h
  split_ifs at h
  · cases h; exact Or.inl rfl
  · cases h; exact Or.inr rfl

theorem Save64_snd_of_ok {s : memory.EventStore} {ctx : context.Context}
    {first : eh.Event} {rest : List eh.Event} {o : Int} {ds : List memory.dbEvent}
    (h : memory.buildRecords64 first.AggregateID (first :: rest) o = Except.ok ds) :
    (s.Save64 ctx (first :: rest) o).2 = none ∨
      (s.Save64 ctx (first :: rest) o).2 =
        some ⟨GoError.ErrCouldNotSaveAggregate, eh.Namespace ctx⟩ := by
  simp only [memory.EventStore.Save64, h]
  split
  · exact Or.inl rfl
  · split
    · split
      · exact Or.inr rfl
      · exact Or.inl rfl
    · exact Or.inl rfl

/-- The validation error of `Save64` is the error of its loop: it does not depend on
the store or the context. -/
theorem validationError_Save64 (s : memory.EventStore) (ctx : context.Context)
    (first : eh.Event) (rest : List eh.Event) (o : Int) :
    validationError (s.Save64 ctx (first :: rest) o).2 =
      (match memory.buildRecords64 first.AggregateID (first :: rest) o with
        | Except.error err => some err
        | Except.ok _ => none) := by
  cases hb : memory.buildRecords64 first.AggregateID (first :: rest) o with
  | error err =>
    rw [Save64_rejected hb]
    rcases buildRecords64_error_cases hb with h | h <;> subst h <;> rfl
  | ok ds =>
    rcases @Save64_snd_of_ok s ctx _ _ _ _ hb with h | h <;> rw [h] <;> rfl

/-! The claims -/

/-- C1 (round trip of Save then Load): for every store, contexts resolving to the
same namespace and every non-empty batch of events of one aggregate `X` with
versions `1..n` in order, `Save(batch, 0)` returns `nil` and `Load` of `X`
afterwards returns, without error, exactly the batch: `n` events, in order, each
with the six fields of the corresponding batch event (an `eh.Event` is the tuple
of these six fields). -/
theorem C1_save_load_round_trip (s : memory.EventStore) (ctx ctx' : context.Context)
    (t : eh.AggregateType) (X : eh.UUID) (batch : List eh.Event)
    (hvalid : validBatch X 0 batch) (hns : eh.Namespace ctx' = eh.Namespace ctx) :
    (s.Save ctx batch 0).2 = none ∧
    ((s.Save ctx batch 0).1.Load ctx' t X).2 = (batch, none) ∧
    ((s.Save ctx batch 0).1.Load ctx' t X).2.1.length = batch.length := by
  have hget : (s.Save ctx batch 0).1.get (eh.Namespace ctx) X =
      some { AggregateID := X, Version := (batch.length : Int),
             Events := batch.map memory.toDbEvent } := by
    rw [Save_zero hvalid]
    exact get_put_same _ _ _ _ (namespaceFor_provisioned s ctx)
  have hload : ((s.Save ctx batch 0).1.Load ctx' t X).2 = (batch, none) := by
    rw [Load_snd, hns, hget]
    simp only [map_asEvent_toDbEvent]
  exact ⟨by rw [Save_zero hvalid], hload, by rw [hload]⟩

/-- Witness of C1: the batch `[Created@1, Shipped@2]` of `ord-1`, saved over a store
that already holds a record of `ord-1`. -/
theorem C1_save_load_round_trip_witness :
    (validBatch "ord-1" 0 [orderEvent "Created" "ord-1" 1, orderEvent "Shipped" "ord-1" 2]
      ∧ eh.Namespace ctxDefault = eh.Namespace ctxDefault) ∧
    ((storeOrd1.Save ctxDefault
        [orderEvent "Created" "ord-1" 1, orderEvent "Shipped" "ord-1" 2] 0).2 = none ∧
     ((storeOrd1.Save ctxDefault
        [orderEvent "Created" "ord-1" 1, orderEvent "Shipped" "ord-1" 2] 0).1.Load
          ctxDefault "Order" "ord-1").2
        = ([orderEvent "Created" "ord-1" 1, orderEvent "Shipped" "ord-1" 2], none) ∧
     ((storeOrd1.Save ctxDefault
        [orderEvent "Created" "ord-1" 1, orderEvent "Shipped" "ord-1" 2] 0).1.Load
          ctxDefault "Order" "ord-1").2.1.length
        = [orderEvent "Created" "ord-1" 1, orderEvent "Shipped" "ord-1" 2].length) :=
  ⟨⟨by decide, rfl⟩,
   C1_save_load_round_trip storeOrd1 ctxDefault ctxDefault "Order" "ord-1" _
     (by decide) rfl⟩

/-- C2 (successful append): when `X` has a record with stored version `v ≠ 0` in the
resolved namespace and the batch is non-empty, of aggregate `X`, with versions
`v+1, ..., v+k`, then `Save(batch, v)` returns `nil`, the stored version becomes
`v+k`, and `Load` of `X` afterwards returns what it returned before followed by
the batch. -/
theorem C2_successful_append (s : memory.EventStore) (ctx ctx' : context.Context)
    (t : eh.AggregateType) (X : eh.UUID) (v : Int) (batch : List eh.Event)
    (a : memory.aggregateRecord)
    (ha : s.get (eh.Namespace ctx) X = some a) (hv : a.Version = v) (hv0 : v ≠ 0)
    (hvalid : validBatch X v batch) (hns : eh.Namespace ctx' = eh.Namespace ctx) :
    (s.Save ctx batch v).2 = none ∧
    ((s.Save ctx batch v).1.get (eh.Namespace ctx) X).map (fun r => r.Version)
      = some (v + (batch.length : Int)) ∧
    ((s.Save ctx batch v).1.Load ctx' t X).2
      = ((s.Load ctx' t X).2.1 ++ batch, none) := by
  have hget := get_Save_append hvalid hv0 ha hv
  refine ⟨by rw [Save_append hvalid hv0 ha hv], by rw [hget, hv]; rfl, ?_⟩
  rw [Load_snd, Load_snd, hns, hget, ha]
  simp only [List.map_append, map_asEvent_toDbEvent]

/-- Witness of C2: `[Cancelled@3]` appended to `ord-1` at stored version 2. -/
theorem C2_successful_append_witness :
    (storeOrd1.get (eh.Namespace ctxDefault) "ord-1" = some recordOrd1 ∧
      recordOrd1.Version = 2 ∧ (2 : Int) ≠ 0 ∧
      validBatch "ord-1" 2 [orderEvent "Cancelled" "ord-1" 3] ∧
      eh.Namespace ctxDefault = eh.Namespace ctxDefault) ∧
    ((storeOrd1.Save ctxDefault [orderEvent "Cancelled" "ord-1" 3] 2).2 = none ∧
     ((storeOrd1.Save ctxDefault [orderEvent "Cancelled" "ord-1" 3] 2).1.get
        (eh.Namespace ctxDefault) "ord-1").map (fun r => r.Version)
        = some (2 + ([orderEvent "Cancelled" "ord-1" 3].length : Int)) ∧
     ((storeOrd1.Save ctxDefault [orderEvent "Cancelled" "ord-1" 3] 2).1.Load
        ctxDefault "Order" "ord-1").2
        = ((storeOrd1.Load ctxDefault "Order" "ord-1").2.1
            ++ [orderEvent "Cancelled" "ord-1" 3], none)) :=
  ⟨⟨by decide, by decide, by decide, by decide, rfl⟩,
   C2_successful_append storeOrd1 ctxDefault ctxDefault "Order" "ord-1" 2 _ recordOrd1
     (by decide) (by decide) (by decide) (by decide) rfl⟩

/-- C3 (version mismatch is a concurrency conflict): when `X` has a record in the
resolved namespace, `o ≠ 0` differs from its stored version and the batch is valid
for `o`, `Save(batch, o)` returns `ErrCouldNotSaveAggregate` wrapped in an
`EventStoreError` carrying the namespace. -/
theorem C3_version_mismatch_conflict (s : memory.EventStore) (ctx : context.Context)
    (X : eh.UUID) (o : Int) (batch : List eh.Event) (a : memory.aggregateRecord)
    (ha : s.get (eh.Namespace ctx) X = some a) (ho : o ≠ 0) (hov : o ≠ a.Version)
    (hvalid : validBatch X o batch) :
    (s.Save ctx batch o).2 =
      some ⟨GoError.ErrCouldNotSaveAggregate, eh.Namespace ctx⟩ := by
  rw [Save_conflict hvalid ho ha (fun h => hov h.symm)]

/-- Witness of C3: a writer that read `ord-1` at version 1 and brings `Cancelled@2`
while the stored version is 2. -/
theorem C3_version_mismatch_conflict_witness :
    (storeOrd1.get (eh.Namespace ctxDefault) "ord-1" = some recordOrd1 ∧
      (1 : Int) ≠ 0 ∧ (1 : Int) ≠ recordOrd1.Version ∧
      validBatch "ord-1" 1 [orderEvent "Cancelled" "ord-1" 2]) ∧
    (storeOrd1.Save ctxDefault [orderEvent "Cancelled" "ord-1" 2] 1).2 =
      some ⟨GoError.ErrCouldNotSaveAggregate, eh.Namespace ctxDefault⟩ :=
  ⟨⟨by decide, by decide, by decide, by decide⟩,
   C3_version_mismatch_conflict storeOrd1 ctxDefault "ord-1" 1 _ recordOrd1
     (by decide) (by decide) (by decide) (by decide)⟩

/-- C4 as stated fails on its own scenario: after `Save([Created@1, Shipped@2], 0)`
on `ord-1` the stored version is 2, and `Save([Cancelled@3], 1)` satisfies every
premise, yet the error returned is `ErrIncorrectEventVersion`, not the
concurrency-conflict error. -/
theorem C4_stale_writer_counterexample :
    (storeOrd1.get (eh.Namespace ctxDefault) "ord-1" = some recordOrd1 ∧
      recordOrd1.Version = 2 ∧ (1 : Int) ≤ 2 ∧ (1 : Int) ≠ 0 ∧ (1 : Int) ≠ 2 ∧
      [orderEvent "Cancelled" "ord-1" 3] ≠ [] ∧
      (∀ e ∈ [orderEvent "Cancelled" "ord-1" 3], e.AggregateID = "ord-1") ∧
      [orderEvent "Cancelled" "ord-1" 3].map (fun e => e.Version) = versionsFrom 2 1) ∧
    (storeOrd1.Save ctxDefault [orderEvent "Cancelled" "ord-1" 3] 1).2 ≠
      some ⟨GoError.ErrCouldNotSaveAggregate, eh.Namespace ctxDefault⟩ ∧
    (storeOrd1.Save ctxDefault [orderEvent "Cancelled" "ord-1" 3] 1).2 =
      some ⟨GoError.ErrIncorrectEventVersion, eh.Namespace ctxDefault⟩ := by
  decide

/-- C4 (amended): when `X` has stored version `v ≥ 1`, `o ≠ 0`, `o ≠ v`, and the
non-empty batch of `X` continues the stored stream (versions `v+1, v+2, ...`),
`Save(batch, o)` fails with `ErrIncorrectEventVersion`: the batch is checked
against `o` before the stored version is looked at. The store is left as it was. -/
theorem C4_stale_writer_incorrect_version (s : memory.EventStore)
    (ctx : context.Context) (X : eh.UUID) (v o : Int) (batch : List eh.Event)
    (a : memory.aggregateRecord)
    (ha : s.get (eh.Namespace ctx) X = some a) (_hv : a.Version = v) (_hv1 : 1 ≤ v)
    (_ho : o ≠ 0) (hov : o ≠ v) (hne : batch ≠ [])
    (hid : ∀ e ∈ batch, e.AggregateID = X)
    (hver : batch.map (fun e => e.Version) = versionsFrom v batch.length) :
    (s.Save ctx batch o).2 =
      some ⟨GoError.ErrIncorrectEventVersion, eh.Namespace ctx⟩ ∧
    (s.Save ctx batch o).1.get (eh.Namespace ctx) X = some a := by
  have hgap : batch.map (fun e => e.Version) ≠ versionsFrom o batch.length := by
    rw [hver]
    exact versionsFrom_ne_of_ne hov (List.length_pos.mpr hne)
  rw [Save_gap hne hid hgap]
  exact ⟨rfl, ha⟩

/-- Witness of C4 (amended): the scenario of the specification. -/
theorem C4_stale_writer_incorrect_version_witness :
    (storeOrd1.get (eh.Namespace ctxDefault) "ord-1" = some recordOrd1 ∧
      recordOrd1.Version = 2 ∧ (1 : Int) ≤ 2 ∧ (1 : Int) ≠ 0 ∧ (1 : Int) ≠ 2 ∧
      [orderEvent "Cancelled" "ord-1" 3] ≠ [] ∧
      (∀ e ∈ [orderEvent "Cancelled" "ord-1" 3], e.AggregateID = "ord-1") ∧
      [orderEvent "Cancelled" "ord-1" 3].map (fun e => e.Version)
        = versionsFrom 2 [orderEvent "Cancelled" "ord-1" 3].length) ∧
    ((storeOrd1.Save ctxDefault [orderEvent "Cancelled" "ord-1" 3] 1).2 =
      some ⟨GoError.ErrIncorrectEventVersion, eh.Namespace ctxDefault⟩ ∧
     (storeOrd1.Save ctxDefault [orderEvent "Cancelled" "ord-1" 3] 1).1.get
      (eh.Namespace ctxDefault) "ord-1" = some recordOrd1) :=
  ⟨⟨by decide, by decide, by decide, by decide, by decide, by decide, by decide,
    by decide⟩,
   C4_stale_writer_incorrect_version storeOrd1 ctxDefault "ord-1" 2 1 _ recordOrd1
     (by decide) (by decide) (by decide) (by decide) (by decide) (by decide)
     (by decide) (by decide)⟩

/-- C5 as stated fails for `o = 0`: on the empty store `ord-1` has no record, the
batches `[Created@1]` and `[Opened@1]` are both valid for 0, and both
`Save` calls, one after the other, return `nil`; the second replaces the record
written by the first. -/
theorem C5_two_writers_counterexample :
    (memory.NewEventStore.get (eh.Namespace ctxDefault) "ord-1" = none ∧
      validBatch "ord-1" 0 [orderEvent "Created" "ord-1" 1] ∧
      validBatch "ord-1" 0 [orderEvent "Opened" "ord-1" 1]) ∧
    (memory.NewEventStore.Save ctxDefault [orderEvent "Created" "ord-1" 1] 0).2 = none ∧
    ((memory.NewEventStore.Save ctxDefault [orderEvent "Created" "ord-1" 1] 0).1.Save
      ctxDefault [orderEvent "Opened" "ord-1" 1] 0).2 = none ∧
    (((memory.NewEventStore.Save ctxDefault [orderEvent "Created" "ord-1" 1] 0).1.Save
      ctxDefault [orderEvent "Opened" "ord-1" 1] 0).1.Load ctxDefault "Order" "ord-1").2
      = ([orderEvent "Opened" "ord-1" 1], none) := by
  decide

/-- C5 (amended): when `X` has a record whose stored version is `o ≠ 0` and `A`, `B`
are two batches valid for `o`, then, whichever of `Save(A, o)` and `Save(B, o)`
runs first under the same namespace, the first returns `nil`, the second returns
the concurrency-conflict error, and the final stored version of `X` is `o` plus
the length of the batch that was saved first. -/
theorem C5_two_writers_one_wins (s : memory.EventStore) (ctxA ctxB : context.Context)
    (X : eh.UUID) (o : Int) (A B : List eh.Event) (a : memory.aggregateRecord)
    (hns : eh.Namespace ctxA = eh.Namespace ctxB)
    (ha : s.get (eh.Namespace ctxA) X = some a) (hv : a.Version = o) (ho : o ≠ 0)
    (hA : validBatch X o A) (hB : validBatch X o B) :
    ((s.Save ctxA A o).2 = none ∧
      ((s.Save ctxA A o).1.Save ctxB B o).2 =
        some ⟨GoError.ErrCouldNotSaveAggregate, eh.Namespace ctxB⟩ ∧
      (((s.Save ctxA A o).1.Save ctxB B o).1.get (eh.Namespace ctxA) X).map
        (fun r => r.Version) = some (o + (A.length : Int))) ∧
    ((s.Save ctxB B o).2 = none ∧
      ((s.Save ctxB B o).1.Save ctxA A o).2 =
        some ⟨GoError.ErrCouldNotSaveAggregate, eh.Namespace ctxA⟩ ∧
      (((s.Save ctxB B o).1.Save ctxA A o).1.get (eh.Namespace ctxB) X).map
        (fun r => r.Version) = some (o + (B.length : Int))) :=
  ⟨Save_twice hns ha hv ho hA hB,
   Save_twice hns.symm (by rw [← hns]; exact ha) hv ho hB hA⟩

/-- Witness of C5 (amended): two writers that both read `ord-1` at version 2. -/
theorem C5_two_writers_one_wins_witness :
    (eh.Namespace ctxDefault = eh.Namespace ctxDefault ∧
      storeOrd1.get (eh.Namespace ctxDefault) "ord-1" = some recordOrd1 ∧
      recordOrd1.Version = 2 ∧ (2 : Int) ≠ 0 ∧
      validBatch "ord-1" 2 [orderEvent "Cancelled" "ord-1" 3] ∧
      validBatch "ord-1" 2
        [orderEvent "Paid" "ord-1" 3, orderEvent "Delivered" "ord-1" 4]) ∧
    (((storeOrd1.Save ctxDefault [orderEvent "Cancelled" "ord-1" 3] 2).2 = none ∧
      ((storeOrd1.Save ctxDefault [orderEvent "Cancelled" "ord-1" 3] 2).1.Save ctxDefault
        [orderEvent "Paid" "ord-1" 3, orderEvent "Delivered" "ord-1" 4] 2).2 =
        some ⟨GoError.ErrCouldNotSaveAggregate, eh.Namespace ctxDefault⟩ ∧
      (((storeOrd1.Save ctxDefault [orderEvent "Cancelled" "ord-1" 3] 2).1.Save ctxDefault
        [orderEvent "Paid" "ord-1" 3, orderEvent "Delivered" "ord-1" 4] 2).1.get
          (eh.Namespace ctxDefault) "ord-1").map (fun r => r.Version)
        = some (2 + ([orderEvent "Cancelled" "ord-1" 3].length : Int))) ∧
     ((storeOrd1.Save ctxDefault
        [orderEvent "Paid" "ord-1" 3, orderEvent "Delivered" "ord-1" 4] 2).2 = none ∧
      ((storeOrd1.Save ctxDefault
        [orderEvent "Paid" "ord-1" 3, orderEvent "Delivered" "ord-1" 4] 2).1.Save
          ctxDefault [orderEvent "Cancelled" "ord-1" 3] 2).2 =
        some ⟨GoError.ErrCouldNotSaveAggregate, eh.Namespace ctxDefault⟩ ∧
      (((storeOrd1.Save ctxDefault
        [orderEvent "Paid" "ord-1" 3, orderEvent "Delivered" "ord-1" 4] 2).1.Save
          ctxDefault [orderEvent "Cancelled" "ord-1" 3] 2).1.get
          (eh.Namespace ctxDefault) "ord-1").map (fun r => r.Version)
        = some (2 + ([orderEvent "Paid" "ord-1" 3,
            orderEvent "Delivered" "ord-1" 4].length : Int)))) :=
  ⟨⟨rfl, by decide, by decide, by decide, by decide, by decide⟩,
   C5_two_writers_one_wins storeOrd1 ctxDefault ctxDefault "ord-1" 2 _ _ recordOrd1
     rfl (by decide) (by decide) (by decide) (by decide) (by decide)⟩

/-- C6, the code at the failing input: on the empty store `ord-1` has no record, the
batch `[Cancelled@3]` is valid for `originalVersion = 2`, and `Save` returns `nil`
although it records nothing: `Load` of `ord-1` afterwards is empty. -/
theorem C6_append_without_record_returns_nil :
    (memory.NewEventStore.get (eh.Namespace ctxDefault) "ord-1" = none ∧
      (2 : Int) ≠ 0 ∧ validBatch "ord-1" 2 [orderEvent "Cancelled" "ord-1" 3]) ∧
    (memory.NewEventStore.Save ctxDefault [orderEvent "Cancelled" "ord-1" 3] 2).2 = none ∧
    (memory.NewEventStore.Save ctxDefault [orderEvent "Cancelled" "ord-1" 3] 2).1.get
      (eh.Namespace ctxDefault) "ord-1" = none ∧
    ((memory.NewEventStore.Save ctxDefault [orderEvent "Cancelled" "ord-1" 3] 2).1.Load
      ctxDefault "Order" "ord-1").2 = ([], none) := by
  decide

/-- C7 (atomicity on failure): whenever `Save` returns an error, of any kind, every
namespace and aggregate id maps to the same record (version and events) after the
call as before it, and every `Load` returns what it returned before: no prefix of
the batch is recorded. -/
theorem C7_atomicity_on_failure (s : memory.EventStore) (ctx : context.Context)
    (batch : List eh.Event) (o : Int) (err : eh.EventStoreError)
    (h : (s.Save ctx batch o).2 = some err) :
    (∀ (ns : String) (id : eh.UUID), (s.Save ctx batch o).1.get ns id = s.get ns id) ∧
    (∀ (ctx' : context.Context) (t : eh.AggregateType) (id : eh.UUID),
      ((s.Save ctx batch o).1.Load ctx' t id).2 = (s.Load ctx' t id).2) := by
  have hs := Save_error_store s ctx batch o err h
  exact ⟨fun ns id => by rw [hs], fun ctx' t id => by rw [hs]⟩

/-- Witness of C7: a batch with a version gap after a valid first event, refused
against `ord-1` at stored version 2. -/
theorem C7_atomicity_on_failure_witness :
    (storeOrd1.Save ctxDefault
        [orderEvent "Paid" "ord-1" 3, orderEvent "Delivered" "ord-1" 5] 2).2
      = some ⟨GoError.ErrIncorrectEventVersion, "default"⟩ ∧
    ((∀ (ns : String) (id : eh.UUID),
        (storeOrd1.Save ctxDefault
          [orderEvent "Paid" "ord-1" 3, orderEvent "Delivered" "ord-1" 5] 2).1.get ns id
          = storeOrd1.get ns id) ∧
     (∀ (ctx' : context.Context) (t : eh.AggregateType) (id : eh.UUID),
        ((storeOrd1.Save ctxDefault
          [orderEvent "Paid" "ord-1" 3, orderEvent "Delivered" "ord-1" 5] 2).1.Load
            ctx' t id).2 = (storeOrd1.Load ctx' t id).2)) :=
  ⟨by decide,
   C7_atomicity_on_failure storeOrd1 ctxDefault _ 2
     ⟨GoError.ErrIncorrectEventVersion, "default"⟩ (by decide)⟩

/-- C8 as stated fails where Go's `int` wraps: with `originalVersion = MaxInt64` the
one-event batch with version `MinInt64` is not the integer `MaxInt64 + 1`, yet
`version+1` wraps to `MinInt64`, the guard passes and `Save` returns `nil`. -/
theorem C8_version_gap_counterexample :
    ([eventAtMinInt] ≠ [] ∧
      (∀ e ∈ [eventAtMinInt], e.AggregateID = "ord-1") ∧
      [eventAtMinInt].map (fun e => e.Version)
        ≠ versionsFrom MaxInt64 [eventAtMinInt].length) ∧
    (memory.NewEventStore.Save64 ctxDefault [eventAtMinInt] MaxInt64).2 = none ∧
    (memory.NewEventStore.Save64 ctxDefault [eventAtMinInt] MaxInt64).2 ≠
      some ⟨GoError.ErrIncorrectEventVersion, eh.Namespace ctxDefault⟩ := by
  decide

/-- C8 (amended): for every store, every `originalVersion` `o` and every non-empty
batch whose events all carry the aggregate id `X` but whose versions are not
exactly `o+1, ..., o+k` in order as Go's `int` computes these sums, `Save(batch, o)`
returns the `ErrIncorrectEventVersion` error; when `o+k` does not pass `MaxInt64`
the sums are the integers `o+1, ..., o+k`. -/
theorem C8_version_gap_rejected (s : memory.EventStore) (ctx : context.Context)
    (X : eh.UUID) (o : Int) (batch : List eh.Event) (hne : batch ≠ [])
    (hid : ∀ e ∈ batch, e.AggregateID = X) :
    (batch.map (fun e => e.Version) ≠ versionsFrom64 o batch.length →
      (s.Save64 ctx batch o).2 =
        some ⟨GoError.ErrIncorrectEventVersion, eh.Namespace ctx⟩) ∧
    (MinInt64 ≤ o → o + (batch.length : Int) ≤ MaxInt64 →
      batch.map (fun e => e.Version) ≠ versionsFrom o batch.length →
      (s.Save64 ctx batch o).2 =
        some ⟨GoError.ErrIncorrectEventVersion, eh.Namespace ctx⟩) := by
  constructor
  · intro hver
    rw [Save64_gap hne hid hver]
  · intro hlo hhi hver
    rw [← versionsFrom64_eq_versionsFrom batch.length o hlo hhi] at hver
    rw [Save64_gap hne hid hver]

/-- Witness of C8 (amended): `originalVersion = 2` with versions `[3, 5]`. -/
theorem C8_version_gap_rejected_witness :
    ([orderEvent "Paid" "ord-1" 3, orderEvent "Delivered" "ord-1" 5] ≠ [] ∧
      (∀ e ∈ [orderEvent "Paid" "ord-1" 3, orderEvent "Delivered" "ord-1" 5],
        e.AggregateID = "ord-1") ∧
      MinInt64 ≤ 2 ∧
      (2 : Int) + ([orderEvent "Paid" "ord-1" 3,
          orderEvent "Delivered" "ord-1" 5].length : Int) ≤ MaxInt64 ∧
      [orderEvent "Paid" "ord-1" 3, orderEvent "Delivered" "ord-1" 5].map
          (fun e => e.Version)
        ≠ versionsFrom 2
            [orderEvent "Paid" "ord-1" 3, orderEvent "Delivered" "ord-1" 5].length) ∧
    (storeOrd1.Save64 ctxDefault
        [orderEvent "Paid" "ord-1" 3, orderEvent "Delivered" "ord-1" 5] 2).2 =
      some ⟨GoError.ErrIncorrectEventVersion, eh.Namespace ctxDefault⟩ :=
  ⟨⟨by decide, by decide, by decide, by decide, by decide⟩,
   (C8_version_gap_rejected storeOrd1 ctxDefault "ord-1" 2 _ (by decide)
     (by decide)).2 (by decide) (by decide) (by decide)⟩

/-- C9 as stated fails: the batch `[Created@5 of ord-1, Created@6 of ord-2]` holds
two aggregate ids, yet `Save` with `originalVersion = 0` returns
`ErrIncorrectEventVersion`, not `ErrInvalidEvent`: the first event is visited
first and its version is not 1. -/
theorem C9_mixed_aggregate_counterexample :
    (∃ e1 ∈ [orderEvent "Created" "ord-1" 5, orderEvent "Created" "ord-2" 6],
      ∃ e2 ∈ [orderEvent "Created" "ord-1" 5, orderEvent "Created" "ord-2" 6],
        e1.AggregateID ≠ e2.AggregateID) ∧
    (memory.NewEventStore.Save64 ctxDefault
        [orderEvent "Created" "ord-1" 5, orderEvent "Created" "ord-2" 6] 0).2 ≠
      some ⟨GoError.ErrInvalidEvent, eh.Namespace ctxDefault⟩ ∧
    (memory.NewEventStore.Save64 ctxDefault
        [orderEvent "Created" "ord-1" 5, orderEvent "Created" "ord-2" 6] 0).2 =
      some ⟨GoError.ErrIncorrectEventVersion, eh.Namespace ctxDefault⟩ := by
  decide

/-- C9 (amended): for every store, every `originalVersion` `o` and every batch that
contains two events with distinct aggregate ids, `Save` returns an error and
writes nothing; the error is `ErrInvalidEvent` exactly when the events that
precede the first event of another aggregate than the first event's have versions
`o+1, o+2, ...` in order as Go's `int` computes these sums, and
`ErrIncorrectEventVersion` otherwise. -/
theorem C9_mixed_aggregate_rejected (s : memory.EventStore) (ctx : context.Context)
    (o : Int) (batch : List eh.Event)
    (h : ∃ e1 ∈ batch, ∃ e2 ∈ batch, e1.AggregateID ≠ e2.AggregateID) :
    ((s.Save64 ctx batch o).2 = some ⟨GoError.ErrInvalidEvent, eh.Namespace ctx⟩ ∨
      (s.Save64 ctx batch o).2 =
        some ⟨GoError.ErrIncorrectEventVersion, eh.Namespace ctx⟩) ∧
    ((s.Save64 ctx batch o).2 = some ⟨GoError.ErrInvalidEvent, eh.Namespace ctx⟩ ↔
      (leadingRun batch).map (fun e => e.Version)
        = versionsFrom64 o (leadingRun batch).length) ∧
    (∀ (ns : String) (id : eh.UUID), (s.Save64 ctx batch o).1.get ns id = s.get ns id) ∧
    (∀ (ctx' : context.Context) (t : eh.AggregateType) (id : eh.UUID),
      ((s.Save64 ctx batch o).1.Load ctx' t id).2 = (s.Load ctx' t id).2) := by
  rw [Save64_mixed h]
  refine ⟨?_, ?_, fun _ _ => rfl, fun _ _ _ => rfl⟩
  · split_ifs
    · exact Or.inl rfl
    · exact Or.inr rfl
  · split_ifs with hp
    · simp [hp]
    · simp [hp]

/-- Witness of C9 (amended): `[Created@1 of ord-1, Created@2 of ord-2]` saved with
`originalVersion = 0` is refused with `ErrInvalidEvent`, and
`[Created@MinInt64 of ord-1, Created@5 of ord-2]` saved with
`originalVersion = MaxInt64` as well, the version of the first event being
`MaxInt64 + 1` in Go's `int`. -/
theorem C9_mixed_aggregate_rejected_witness :
    ((∃ e1 ∈ [orderEvent "Created" "ord-1" 1, orderEvent "Created" "ord-2" 2],
      ∃ e2 ∈ [orderEvent "Created" "ord-1" 1, orderEvent "Created" "ord-2" 2],
        e1.AggregateID ≠ e2.AggregateID) ∧
     (∃ e1 ∈ [eventAtMinInt, orderEvent "Created" "ord-2" 5],
      ∃ e2 ∈ [eventAtMinInt, orderEvent "Created" "ord-2" 5],
        e1.AggregateID ≠ e2.AggregateID)) ∧
    (storeOrd1.Save64 ctxDefault
        [orderEvent "Created" "ord-1" 1, orderEvent "Created" "ord-2" 2] 0).2 =
      some ⟨GoError.ErrInvalidEvent, eh.Namespace ctxDefault⟩ ∧
    (storeOrd1.Save64 ctxDefault
        [eventAtMinInt, orderEvent "Created" "ord-2" 5] MaxInt64).2 =
      some ⟨GoError.ErrInvalidEvent, eh.Namespace ctxDefault⟩ ∧
    (∀ (ns : String) (id : eh.UUID),
      (storeOrd1.Save64 ctxDefault
        [orderEvent "Created" "ord-1" 1, orderEvent "Created" "ord-2" 2] 0).1.get ns id
        = storeOrd1.get ns id) :=
  ⟨⟨by decide, by decide⟩,
   (C9_mixed_aggregate_rejected storeOrd1 ctxDefault 0
      [orderEvent "Created" "ord-1" 1, orderEvent "Created" "ord-2" 2]
      (by decide)).2.1.mpr (by decide),
   (C9_mixed_aggregate_rejected storeOrd1 ctxDefault MaxInt64
      [eventAtMinInt, orderEvent "Created" "ord-2" 5] (by decide)).2.1.mpr (by decide),
   (C9_mixed_aggregate_rejected storeOrd1 ctxDefault 0
      [orderEvent "Created" "ord-1" 1, orderEvent "Created" "ord-2" 2]
      (by decide)).2.2.1⟩

/-- C10 (empty batch rejection): for every store, context and `originalVersion`,
`Save` with an empty batch returns the `ErrNoEventsToAppend` error, annotated with
the namespace of the context, and the store it was given. -/
theorem C10_empty_batch_rejected (s : memory.EventStore) (ctx : context.Context)
    (o : Int) :
    (s.Save ctx [] o).2 = some ⟨GoError.ErrNoEventsToAppend, eh.Namespace ctx⟩ ∧
    (s.Save ctx [] o).1 = s :=
  ⟨rfl, rfl⟩

/-- C11 (stream version contiguity): in every store reached from the empty store by
any sequence of `Save` and `Load` calls, every record's stored events have
versions exactly `1, 2, ..., n` in stored order: the event at index `i` (from 0) has
version `i+1`, and no version occurs twice. -/
theorem C11_stream_versions_contiguous (calls : List StoreCall) (ns : String)
    (id : eh.UUID) (a : memory.aggregateRecord)
    (h : (reachedBy calls).get ns id = some a) :
    a.Events.map (fun d => d.Version) = versionsFrom 0 a.Events.length ∧
    (∀ (i : Nat) (d : memory.dbEvent), a.Events[i]? = some d →
      d.Version = (i : Int) + 1) ∧
    (a.Events.map (fun d => d.Version)).Nodup := by
  have hvers := (wellFormedStore_reachedBy calls ns id a h).2.2.1
  refine ⟨hvers, ?_, ?_⟩
  · intro i d hd
    have hm : (a.Events.map (fun d => d.Version))[i]? = some d.Version := by
      rw [List.getElem?_map, hd]
      rfl
    rw [hvers] at hm
    simpa using getElem?_versionsFrom hm
  · rw [hvers]
    exact nodup_versionsFrom 0 _

/-- Witness of C11: the record of `ord-1` after a save, a load and an append. -/
theorem C11_stream_versions_contiguous_witness :
    (reachedBy callsOrd1).get "default" "ord-1" = some recordOrd1After ∧
    (recordOrd1After.Events.map (fun d => d.Version)
        = versionsFrom 0 recordOrd1After.Events.length ∧
     (∀ (i : Nat) (d : memory.dbEvent), recordOrd1After.Events[i]? = some d →
        d.Version = (i : Int) + 1) ∧
     (recordOrd1After.Events.map (fun d => d.Version)).Nodup) :=
  ⟨by decide,
   C11_stream_versions_contiguous callsOrd1 "default" "ord-1" recordOrd1After
     (by decide)⟩

/-- C12 (stored version equals event count): in every store reached from the empty
store by any sequence of `Save` and `Load` calls, the `Version` field of every
record equals the number of events in its `Events` sequence. -/
theorem C12_version_equals_event_count (calls : List StoreCall) (ns : String)
    (id : eh.UUID) (a : memory.aggregateRecord)
    (h : (reachedBy calls).get ns id = some a) :
    a.Version = (a.Events.length : Int) :=
  (wellFormedStore_reachedBy calls ns id a h).2.1

/-- Witness of C12: the record of `ord-1` after a save, a load and an append. -/
theorem C12_version_equals_event_count_witness :
    (reachedBy callsOrd1).get "default" "ord-1" = some recordOrd1After ∧
    recordOrd1After.Version = (recordOrd1After.Events.length : Int) :=
  ⟨by decide,
   C12_version_equals_event_count callsOrd1 "default" "ord-1" recordOrd1After
     (by decide)⟩

/-- C13 (namespace isolation): for every store and every two contexts that resolve
to distinct namespaces `a` and `b`, a `Save` under `a` (any batch and original
version, successful or not) leaves the result of every `Load` under `b` as it
was, and so does a `Load` under `a`. -/
theorem C13_namespace_isolation (s : memory.EventStore) (ctxA ctxB : context.Context)
    (hne : eh.Namespace ctxA ≠ eh.Namespace ctxB) :
    (∀ (batch : List eh.Event) (o : Int) (t : eh.AggregateType) (X : eh.UUID),
      ((s.Save ctxA batch o).1.Load ctxB t X).2 = (s.Load ctxB t X).2) ∧
    (∀ (t' : eh.AggregateType) (id' : eh.UUID) (t : eh.AggregateType) (X : eh.UUID),
      ((s.Load ctxA t' id').1.Load ctxB t X).2 = (s.Load ctxB t X).2) := by
  constructor
  · intro batch o t X
    rw [Load_snd, Load_snd,
      get_Save_other_namespace s ctxA batch o _ X (fun h => hne h.symm)]
  · intro t' id' t X
    rw [Load_snd, Load_snd, get_Load]

/-- Witness of C13: the namespaces `a` and `b`. -/
theorem C13_namespace_isolation_witness :
    eh.Namespace (ctxOf "a") ≠ eh.Namespace (ctxOf "b") ∧
    ((∀ (batch : List eh.Event) (o : Int) (t : eh.AggregateType) (X : eh.UUID),
      ((storeOrd1.Save (ctxOf "a") batch o).1.Load (ctxOf "b") t X).2
        = (storeOrd1.Load (ctxOf "b") t X).2) ∧
     (∀ (t' : eh.AggregateType) (id' : eh.UUID) (t : eh.AggregateType) (X : eh.UUID),
      ((storeOrd1.Load (ctxOf "a") t' id').1.Load (ctxOf "b") t X).2
        = (storeOrd1.Load (ctxOf "b") t X).2)) :=
  ⟨by decide, C13_namespace_isolation storeOrd1 (ctxOf "a") (ctxOf "b") (by decide)⟩

/-- C14 (empty-aggregate read): `Load` never returns an error; and when the resolved
namespace holds no record for the id, in particular when the namespace has no
storage yet, `Load` returns an empty event sequence and a nil error. -/
theorem C14_empty_aggregate_read (s : memory.EventStore) (ctx : context.Context)
    (t : eh.AggregateType) (id : eh.UUID) :
    (s.Load ctx t id).2.2 = none ∧
    (s.get (eh.Namespace ctx) id = none → (s.Load ctx t id).2 = ([], none)) ∧
    ((s.db (eh.Namespace ctx)).isSome = false → (s.Load ctx t id).2 = ([], none)) := by
  refine ⟨?_, ?_, ?_⟩
  · rw [Load_snd]
    split <;> rfl
  · intro h
    rw [Load_snd, h]
  · intro h
    have hget : s.get (eh.Namespace ctx) id = none := by
      unfold memory.EventStore.get
      split
      · rfl
      · next m hm => simp [hm] at h
    rw [Load_snd, hget]

/-- Witness of C14: a load of `ord-2`, which has no record, and a load under the
namespace `fresh`, which has no storage. -/
theorem C14_empty_aggregate_read_witness :
    (storeOrd1.get (eh.Namespace ctxDefault) "ord-2" = none ∧
      (storeOrd1.db (eh.Namespace (ctxOf "fresh"))).isSome = false) ∧
    (storeOrd1.Load ctxDefault "Order" "ord-2").2 = ([], none) ∧
    (storeOrd1.Load (ctxOf "fresh") "Order" "ord-1").2 = ([], none) :=
  ⟨⟨by decide, by decide⟩,
   (C14_empty_aggregate_read storeOrd1 ctxDefault "Order" "ord-2").2.1 (by decide),
   (C14_empty_aggregate_read storeOrd1 (ctxOf "fresh") "Order" "ord-1").2.2
     (by decide)⟩

/-- C15 (Load is read-only on aggregate data): after `Load` every namespace and
aggregate id map to the same record as before (none added, none removed), the
storage of every other namespace is as before, and storage for the resolved
namespace exists: the store is unchanged when it existed already, and it is empty
when it was absent. -/
theorem C15_load_read_only (s : memory.EventStore) (ctx : context.Context)
    (t : eh.AggregateType) (id : eh.UUID) :
    (∀ (ns : String) (id' : eh.UUID), (s.Load ctx t id).1.get ns id' = s.get ns id') ∧
    (∀ (ns : String), ns ≠ eh.Namespace ctx → (s.Load ctx t id).1.db ns = s.db ns) ∧
    ((s.Load ctx t id).1.db (eh.Namespace ctx)).isSome = true ∧
    ((s.db (eh.Namespace ctx)).isSome = true → (s.Load ctx t id).1 = s) ∧
    ((s.db (eh.Namespace ctx)).isSome = false →
      (s.Load ctx t id).1.db (eh.Namespace ctx) = some (fun _ => none)) := by
  refine ⟨fun ns id' => get_Load s ctx t id ns id', ?_, ?_, ?_, ?_⟩
  · intro ns hns
    rw [Load_fst]
    simp only [memory.EventStore.namespaceFor]
    split
    · rfl
    · simp [hns]
  · rw [Load_fst]
    exact namespaceFor_provisioned s ctx
  · intro h
    rw [Load_fst]
    exact namespaceFor_of_isSome s ctx h
  · intro h
    rw [Load_fst]
    simp only [memory.EventStore.namespaceFor]
    split
    · next m hm => simp [hm] at h
    · simp

/-- Witness of C15: a load under the namespace `fresh`, which has no storage yet, and
a load under the baseline namespace, which has. -/
theorem C15_load_read_only_witness :
    ((storeOrd1.db (eh.Namespace (ctxOf "fresh"))).isSome = false ∧
      (storeOrd1.db (eh.Namespace ctxDefault)).isSome = true) ∧
    (storeOrd1.Load (ctxOf "fresh") "Order" "ord-1").1.db (eh.Namespace (ctxOf "fresh"))
      = some (fun _ => none) ∧
    (storeOrd1.Load ctxDefault "Order" "ord-1").1 = storeOrd1 :=
  ⟨⟨by decide, by decide⟩,
   (C15_load_read_only storeOrd1 (ctxOf "fresh") "Order" "ord-1").2.2.2.2 (by decide),
   (C15_load_read_only storeOrd1 ctxDefault "Order" "ord-1").2.2.2.1 (by decide)⟩

/-- C16 as stated fails when a handler panics or changes the bus. With `H1` registered
for `Created` and `H2` globally: if `H1` panics, publishing a `Created` event
calls `[H1]` only, the bus having no `recover`; and if `H1` registers `H9`
globally during its call, the publish calls `[H1, H2, H9]`, the global list being
read after `H1` has run. -/
theorem C16_fan_out_counterexample :
    (invocations (panicsAt "H1") (busAfter regsFanOut)
        (orderEvent "Created" "ord-1" 1) () =
      [("H1", orderEvent "Created" "ord-1" 1)] ∧
     invocations (panicsAt "H1") (busAfter regsFanOut)
        (orderEvent "Created" "ord-1" 1) () ≠
      (registeredFor "Created" regsFanOut).map
          (fun h => (h, orderEvent "Created" "ord-1" 1)) ++
        (registeredGlobally regsFanOut).map
          (fun h => (h, orderEvent "Created" "ord-1" 1))) ∧
    (invocations (registersAt "H1" "H9") (busAfter regsFanOut)
        (orderEvent "Created" "ord-1" 1) () =
      [("H1", orderEvent "Created" "ord-1" 1), ("H2", orderEvent "Created" "ord-1" 1),
       ("H9", orderEvent "Created" "ord-1" 1)] ∧
     invocations (registersAt "H1" "H9") (busAfter regsFanOut)
        (orderEvent "Created" "ord-1" 1) () ≠
      (registeredFor "Created" regsFanOut).map
          (fun h => (h, orderEvent "Created" "ord-1" 1)) ++
        (registeredGlobally regsFanOut).map
          (fun h => (h, orderEvent "Created" "ord-1" 1))) := by
  decide

/-- C16 (amended): for every bus built from `NewInternalEventBus` by a sequence of
`AddHandler` and `AddGlobalHandler` calls, every event `e` and handlers that do
not change the bus during the publish, `PublishEvent(e)` calls handlers, each with
`e`, in this order: first those registered by `AddHandler` with a sample of `e`'s
type tag, in registration order, then those registered by `AddGlobalHandler`, in
registration order. It calls all of them when it returns, which it does when no
handler panics; a handler that panics ends the publish, so the calls made are
always a prefix of that sequence. No other handler is called. -/
theorem C16_ordered_fan_out {H σ : Type} (regs : List (Registration H)) (e : eh.Event)
    (HandleEvent : HandleEventFn H σ) (w : σ) (hframe : leavesBus HandleEvent) :
    List.IsPrefix (invocations HandleEvent (busAfter regs) e w)
      ((registeredFor e.EventType regs ++ registeredGlobally regs).map
        (fun h => (h, e))) ∧
    (((busAfter regs).PublishEvent HandleEvent e w).isReturned = true →
      invocations HandleEvent (busAfter regs) e w =
        (registeredFor e.EventType regs).map (fun h => (h, e)) ++
          (registeredGlobally regs).map (fun h => (h, e))) ∧
    (alwaysReturns HandleEvent →
      ((busAfter regs).PublishEvent HandleEvent e w).isReturned = true) ∧
    (busAfter regs).PublishEvent HandleEvent e w =
      callHandlers HandleEvent e
        (registeredFor e.EventType regs ++ registeredGlobally regs) (busAfter regs, w) ∧
    (∀ (h : H), h ∉ registeredFor e.EventType regs → h ∉ registeredGlobally regs →
      ∀ (e' : eh.Event), (h, e') ∉ invocations HandleEvent (busAfter regs) e w) := by
  obtain ⟨n, _, hinv, hret⟩ := invocations_eq hframe (busAfter regs) e w
  rw [handlersOf_busAfter, globalHandlers_busAfter] at hinv hret
  have hpre : List.IsPrefix (invocations HandleEvent (busAfter regs) e w)
      ((registeredFor e.EventType regs ++ registeredGlobally regs).map
        (fun h => (h, e))) := by
    rw [hinv]
    exact List.IsPrefix.map _ (List.take_prefix n _)
  have hpub : (busAfter regs).PublishEvent HandleEvent e w =
      callHandlers HandleEvent e
        (registeredFor e.EventType regs ++ registeredGlobally regs) (busAfter regs, w) := by
    rw [PublishEvent_eq_callHandlers hframe, handlersOf_busAfter, globalHandlers_busAfter]
  refine ⟨hpre, ?_, ?_, hpub, ?_⟩
  · intro h
    rw [hinv, hret h, List.take_length, List.map_append]
  · intro hnp
    rw [hpub]
    exact isReturned_callHandlers_of_alwaysReturns hnp e _ _
  · intro h h1 h2 e' hmem
    have hmem' := hpre.mem hmem
    rw [List.map_append, List.mem_append] at hmem'
    rcases hmem' with hm | hm
    · obtain ⟨h', hh', heq⟩ := List.mem_map.mp hm
      cases heq
      exact h1 hh'
    · obtain ⟨h', hh', heq⟩ := List.mem_map.mp hm
      cases heq
      exact h2 hh'

/-- Witness of C16 (amended): `H1` registered for `Created` and `H2` globally, neither
panicking nor changing the bus; publishing a `Created` event calls `[H1, H2]`,
publishing a `Shipped` event calls `[H2]`. -/
theorem C16_ordered_fan_out_witness :
    (leavesBus quietHandlers ∧
      ((busAfter regsFanOut).PublishEvent quietHandlers
          (orderEvent "Created" "ord-1" 1) ()).isReturned = true ∧
      ((busAfter regsFanOut).PublishEvent quietHandlers
          (orderEvent "Shipped" "ord-1" 2) ()).isReturned = true) ∧
    invocations quietHandlers (busAfter regsFanOut) (orderEvent "Created" "ord-1" 1) () =
      [("H1", orderEvent "Created" "ord-1" 1), ("H2", orderEvent "Created" "ord-1" 1)] ∧
    invocations quietHandlers (busAfter regsFanOut) (orderEvent "Shipped" "ord-1" 2) () =
      [("H2", orderEvent "Shipped" "ord-1" 2)] :=
  ⟨⟨fun _ _ _ _ => rfl, by decide, by decide⟩,
   ((C16_ordered_fan_out regsFanOut (orderEvent "Created" "ord-1" 1) quietHandlers ()
      (fun _ _ _ _ => rfl)).2.1 (by decide)).trans (by decide),
   ((C16_ordered_fan_out regsFanOut (orderEvent "Shipped" "ord-1" 2) quietHandlers ()
      (fun _ _ _ _ => rfl)).2.1 (by decide)).trans (by decide)⟩

/-- C17 as stated fails when a handler panics: `H1` is registered twice for
`Created`, it panics at its first call, and `PublishEvent` calls it once, not
twice. -/
theorem C17_duplicate_registration_counterexample :
    addHandlerCalls "H1" (orderEvent "Created" "ord-1" 1).EventType regsTwice
      + addGlobalHandlerCalls "H1" regsTwice = 2 ∧
    timesInvoked (panicsAt "H1") (busAfter regsTwice)
      (orderEvent "Created" "ord-1" 1) () "H1" = 1 := by
  decide

/-- C17 (amended): for every bus built by a sequence of `AddHandler` and
`AddGlobalHandler` calls, every handler `h`, every event `e` and handlers that do
not change the bus during the publish, the number of calls of `h` that
`PublishEvent(e)` makes is at most the number of `AddHandler(h, sample)` calls
whose sample has `e`'s type tag plus the number of `AddGlobalHandler(h)` calls,
and equals it when `PublishEvent` returns, which it does when no handler panics;
further registrations never lower that number. -/
theorem C17_duplicate_registration {H σ : Type} [DecidableEq H]
    (regs : List (Registration H)) (h : H) (e : eh.Event)
    (HandleEvent : HandleEventFn H σ) (w : σ) (hframe : leavesBus HandleEvent) :
    timesInvoked HandleEvent (busAfter regs) e w h ≤
      addHandlerCalls h e.EventType regs + addGlobalHandlerCalls h regs ∧
    (((busAfter regs).PublishEvent HandleEvent e w).isReturned = true →
      timesInvoked HandleEvent (busAfter regs) e w h =
        addHandlerCalls h e.EventType regs + addGlobalHandlerCalls h regs) ∧
    (alwaysReturns HandleEvent →
      timesInvoked HandleEvent (busAfter regs) e w h =
        addHandlerCalls h e.EventType regs + addGlobalHandlerCalls h regs) ∧
    (∀ (more : List (Registration H)),
      addHandlerCalls h e.EventType regs + addGlobalHandlerCalls h regs ≤
        addHandlerCalls h e.EventType (regs ++ more)
          + addGlobalHandlerCalls h (regs ++ more)) := by
  obtain ⟨n, _, hinv, hret⟩ := invocations_eq hframe (busAfter regs) e w
  rw [handlersOf_busAfter, globalHandlers_busAfter] at hinv hret
  have hfst : (invocations HandleEvent (busAfter regs) e w).map Prod.fst =
      (registeredFor e.EventType regs ++ registeredGlobally regs).take n := by
    rw [hinv, List.map_map]
    have hid : (Prod.fst ∘ fun (h : H) => (h, e)) = (id : H → H) := rfl
    rw [hid, List.map_id]
  have hall : (registeredFor e.EventType regs ++ registeredGlobally regs).count h =
      addHandlerCalls h e.EventType regs + addGlobalHandlerCalls h regs := by
    rw [List.count_append, count_registeredFor, count_registeredGlobally]
  have heq : ((busAfter regs).PublishEvent HandleEvent e w).isReturned = true →
      timesInvoked HandleEvent (busAfter regs) e w h =
        addHandlerCalls h e.EventType regs + addGlobalHandlerCalls h regs := by
    intro hr
    unfold timesInvoked
    rw [hfst, hret hr, List.take_length, hall]
  refine ⟨?_, heq, ?_, ?_⟩
  · unfold timesInvoked
    rw [hfst, ← hall]
    exact (List.take_prefix n _).sublist.count_le h
  · intro hnp
    apply heq
    rw [PublishEvent_eq_callHandlers hframe]
    exact isReturned_callHandlers_of_alwaysReturns hnp e _ _
  · intro more
    simp only [addHandlerCalls, addGlobalHandlerCalls, List.countP_append]
    omega

/-- Witness of C17 (amended): `H1` registered twice for `Created`, not panicking, is
called exactly twice per published `Created` event. -/
theorem C17_duplicate_registration_witness :
    (leavesBus quietHandlers ∧
      ((busAfter regsTwice).PublishEvent quietHandlers
          (orderEvent "Created" "ord-1" 1) ()).isReturned = true) ∧
    timesInvoked quietHandlers (busAfter regsTwice)
      (orderEvent "Created" "ord-1" 1) () "H1" = 2 :=
  ⟨⟨fun _ _ _ _ => rfl, by decide⟩,
   ((C17_duplicate_registration regsTwice "H1" (orderEvent "Created" "ord-1" 1)
      quietHandlers () (fun _ _ _ _ => rfl)).2.1 (by decide)).trans (by decide)⟩

/-- C18 as stated fails where Go's `int` wraps: with `originalVersion = MaxInt64` the
event at index 0 of the one-event batch has version `MinInt64`, which differs from
the integer `MaxInt64 + 0 + 1`, so index 0 is the smallest offending index of the
claim; yet `Save` reports no validation error (it returns `nil`), because
`version+1` wraps to `MinInt64`. -/
theorem C18_validation_counterexample :
    ([eventAtMinInt][0]? = some eventAtMinInt ∧
      eventAtMinInt.AggregateID = "ord-1" ∧
      eventAtMinInt.Version ≠ MaxInt64 + ((0 : Nat) : Int) + 1 ∧
      offendingAt "ord-1" MaxInt64 [eventAtMinInt] 0) ∧
    (memory.NewEventStore.Save64 ctxDefault [eventAtMinInt] MaxInt64).2 = none ∧
    validationError
      (memory.NewEventStore.Save64 ctxDefault [eventAtMinInt] MaxInt64).2 = none := by
  decide

/-- C18 (amended): for every non-empty batch and original version `o`, with `o+i+1`
as Go's `int` computes it: if `i` is the smallest index (from 0) at which the
event's aggregate id differs from the first event's or its version differs from
`o+i+1`, `Save` returns `ErrInvalidEvent` when the aggregate id differs at `i` and
`ErrIncorrectEventVersion` otherwise, and returns the store as it was; `Save`
reports no validation error exactly when there is no such index; and the
validation outcome is the same for every store and context. -/
theorem C18_validation_first_offending (s : memory.EventStore) (ctx : context.Context)
    (first : eh.Event) (rest : List eh.Event) (o : Int) :
    (∀ (i : Nat) (e : eh.Event), (first :: rest)[i]? = some e →
      (e.AggregateID ≠ first.AggregateID ∨ e.Version ≠ wrapInt (o + (i : Int) + 1)) →
      (∀ j, j < i → ¬ offendingAt64 first.AggregateID o (first :: rest) j) →
      s.Save64 ctx (first :: rest) o =
        (s, some ⟨(if e.AggregateID ≠ first.AggregateID then GoError.ErrInvalidEvent
                   else GoError.ErrIncorrectEventVersion), eh.Namespace ctx⟩)) ∧
    (validationError (s.Save64 ctx (first :: rest) o).2 = none ↔
      ∀ i, ¬ offendingAt64 first.AggregateID o (first :: rest) i) ∧
    (∀ (s' : memory.EventStore) (ctx' : context.Context),
      validationError (s'.Save64 ctx' (first :: rest) o).2 =
        validationError (s.Save64 ctx (first :: rest) o).2) := by
  refine ⟨?_, ?_, ?_⟩
  · intro i e he hoff hmin
    exact Save64_rejected
      (buildRecords64_first_offending first.AggregateID (first :: rest) o i e he hoff
        hmin)
  · rw [validationError_Save64, ← buildRecords64_ok_iff]
    cases memory.buildRecords64 first.AggregateID (first :: rest) o <;> simp
  · intro s' ctx'
    rw [validationError_Save64, validationError_Save64]

/-- Witness of C18 (amended): in `[Created@1 of ord-1, Shipped@3 of ord-1,
Paid@3 of ord-2]` saved with original version 0 the first offending index is 1,
where only the version is wrong. -/
theorem C18_validation_first_offending_witness :
    ([orderEvent "Created" "ord-1" 1, orderEvent "Shipped" "ord-1" 3,
        orderEvent "Paid" "ord-2" 3][1]? = some (orderEvent "Shipped" "ord-1" 3) ∧
      ((orderEvent "Shipped" "ord-1" 3).AggregateID
          ≠ (orderEvent "Created" "ord-1" 1).AggregateID ∨
        (orderEvent "Shipped" "ord-1" 3).Version ≠ wrapInt (0 + ((1 : Nat) : Int) + 1)) ∧
      (∀ j, j < 1 → ¬ offendingAt64 (orderEvent "Created" "ord-1" 1).AggregateID 0
        [orderEvent "Created" "ord-1" 1, orderEvent "Shipped" "ord-1" 3,
          orderEvent "Paid" "ord-2" 3] j)) ∧
    storeOrd1.Save64 ctxDefault
        [orderEvent "Created" "ord-1" 1, orderEvent "Shipped" "ord-1" 3,
          orderEvent "Paid" "ord-2" 3] 0 =
      (storeOrd1,
        some ⟨(if (orderEvent "Shipped" "ord-1" 3).AggregateID
                  ≠ (orderEvent "Created" "ord-1" 1).AggregateID
               then GoError.ErrInvalidEvent else GoError.ErrIncorrectEventVersion),
              eh.Namespace ctxDefault⟩) :=
  ⟨⟨by decide, by decide, by decide⟩,
   (C18_validation_first_offending storeOrd1 ctxDefault (orderEvent "Created" "ord-1" 1)
      [orderEvent "Shipped" "ord-1" 3, orderEvent "Paid" "ord-2" 3] 0).1 1
      (orderEvent "Shipped" "ord-1" 3) (by decide) (by decide) (by decide)⟩

/-- C19 (Save touches only its own aggregate): for every store, context, original
version and non-empty batch whose first event has aggregate id `X`, after `Save`,
successful or not, every aggregate id `Y ≠ X` has the same record as before, or
none as before, in the resolved namespace and in every other namespace. -/
theorem C19_save_touches_own_aggregate (s : memory.EventStore) (ctx : context.Context)
    (first : eh.Event) (rest : List eh.Event) (o : Int) (Y : eh.UUID)
    (hY : Y ≠ first.AggregateID) :
    (s.Save ctx (first :: rest) o).1.get (eh.Namespace ctx) Y
      = s.get (eh.Namespace ctx) Y ∧
    (∀ (ns : String), (s.Save ctx (first :: rest) o).1.get ns Y = s.get ns Y) :=
  ⟨get_Save_of_ne s ctx first rest o _ Y (Or.inr hY),
   fun ns => get_Save_of_ne s ctx first rest o ns Y (Or.inr hY)⟩

/-- Witness of C19: saving a first event of `ord-2` leaves the record of `ord-1`. -/
theorem C19_save_touches_own_aggregate_witness :
    "ord-1" ≠ (orderEvent "Created" "ord-2" 1).AggregateID ∧
    ((storeOrd1.Save ctxDefault [orderEvent "Created" "ord-2" 1] 0).1.get
        (eh.Namespace ctxDefault) "ord-1" = storeOrd1.get (eh.Namespace ctxDefault) "ord-1" ∧
     (∀ (ns : String),
        (storeOrd1.Save ctxDefault [orderEvent "Created" "ord-2" 1] 0).1.get ns "ord-1"
          = storeOrd1.get ns "ord-1")) :=
  ⟨by decide,
   C19_save_touches_own_aggregate storeOrd1 ctxDefault (orderEvent "Created" "ord-2" 1)
     [] 0 "ord-1" (by decide)⟩

/-- C20 (records hold only their own aggregate's events): in every store reached
from the empty store by any sequence of `Save` and `Load` calls, a record stored
under the aggregate id `X` has `AggregateID` `X` and all its events have aggregate
id `X`; hence every event that `Load` of `X` returns has aggregate id `X`. -/
theorem C20_records_hold_own_events (calls : List StoreCall) (ns : String)
    (X : eh.UUID) :
    (∀ (a : memory.aggregateRecord), (reachedBy calls).get ns X = some a →
      a.AggregateID = X ∧ ∀ d ∈ a.Events, d.AggregateID = X) ∧
    (∀ (ctx : context.Context) (t : eh.AggregateType), eh.Namespace ctx = ns →
      ∀ e ∈ ((reachedBy calls).Load ctx t X).2.1, e.AggregateID = X) := by
  constructor
  · intro a h
    have hwf := wellFormedStore_reachedBy calls ns X a h
    exact ⟨hwf.1, hwf.2.2.2⟩
  · intro ctx t hns e he
    rw [Load_snd, hns] at he
    cases hget : (reachedBy calls).get ns X with
    | none =>
      rw [hget] at he
      simp at he
    | some a =>
      rw [hget] at he
      obtain ⟨d, hd, rfl⟩ := List.mem_map.mp he
      exact (wellFormedStore_reachedBy calls ns X a hget).2.2.2 d hd

/-- Witness of C20: the record of `ord-1` after a save, a load and an append, and the
events `Load` returns for it. -/
theorem C20_records_hold_own_events_witness :
    ((reachedBy callsOrd1).get "default" "ord-1" = some recordOrd1After ∧
      eh.Namespace ctxDefault = "default") ∧
    (recordOrd1After.AggregateID = "ord-1" ∧
      ∀ d ∈ recordOrd1After.Events, d.AggregateID = "ord-1") ∧
    (∀ e ∈ ((reachedBy callsOrd1).Load ctxDefault "Order" "ord-1").2.1,
      e.AggregateID = "ord-1") :=
  ⟨⟨by decide, by decide⟩,
   (C20_records_hold_own_events callsOrd1 "default" "ord-1").1 recordOrd1After
     (by decide),
   (C20_records_hold_own_events callsOrd1 "default" "ord-1").2 ctxDefault "Order"
     (by decide)⟩

